import Mathlib

/-!
Verification development for the BusinessPulse backend.

Shallow embedding of the parts of the code the claims are about:

* `app/services/chunking.py` — overlapping character chunking (`chunk_text`);
* `app/services/chunking_improved.py` — paragraph/sentence chunking used by ingestion;
* `app/services/ingest.py` — chunk rows and vector ids built during ingestion;
* `app/services/hybrid_search.py` — keyword extraction and hybrid score blending;
* `app/services/chatbot_rag.py` — temporal "before Month Day" detection, temporal
  filtering and customer-scoped filtering of retrieved chunks, and
  `extract_customer_from_query`;
* `app/routes/resources.py` — the resource hour-budget state machine;
* `app/routes/projects.py` — project-number uniqueness checks;
* `app/routes/invoices.py` — invoice line-item aggregation;
* `app/routes/documents.py` — soft-delete semantics for documents.

Text is embedded as `List Char` (ASCII scope for the character classes the
regexes use), Python floats as `ℚ` (the claims are about the algebraic shape of
the score arithmetic, not rounding), database rows as Lean structures, and the
database session as explicit state passed through each operation.  An operation
that raises `HTTPException` before `db.commit()` leaves the database unchanged
(`get_db` closes the session without committing), so failing operations return
the original state together with the HTTP status code.
-/

namespace BusinessPulse

/-! ## Python string primitives -/

/-- Python whitespace test for the ASCII range (`str.strip`, `\s`). -/
def isPySpace (c : Char) : Bool :=
  c = ' ' || c = '\t' || c = '\n' || c = '\r' || c = '\x0b' || c = '\x0c'

/-- Python `str.strip()`: drop leading and trailing whitespace. -/
def pyStrip (l : List Char) : List Char :=
  ((l.dropWhile isPySpace).reverse.dropWhile isPySpace).reverse

/-- Python slice `t[s:e]` for `0 ≤ s ≤ e` (indices past the end are clamped). -/
def pySlice (t : List Char) (s e : Nat) : List Char :=
  (t.drop s).take (e - s)

/-- ASCII lower-casing, matching Python `str.lower()` on ASCII text. -/
def pyLower (l : List Char) : List Char :=
  l.map Char.toLower

/-! ## `app/services/chunking.py` — `chunk_text`

The `while start < n` loop is embedded with explicit fuel: `none` means the
fuel ran out before the loop exited, so termination statements become
statements about the fuel needed.  The loop body is a literal transcription:
`end = min(n, start + chunk_size)`, the window is stripped and appended when
non-empty, the loop breaks when `end >= n`, and otherwise
`start = max(0, end - overlap)` (which is `e - ov` in `Nat`). -/

def chunkLoop (t : List Char) (cs ov : Nat) :
    Nat → Nat → List (List Char) → Option (List (List Char))
  | 0, _, _ => none
  | fuel + 1, start, acc =>
    if start < t.length then
      let e := min t.length (start + cs)
      let ck := pyStrip (pySlice t start e)
      let acc2 := if ck.isEmpty then acc else acc ++ [ck]
      if t.length ≤ e then some acc2
      else chunkLoop t cs ov fuel (e - ov) acc2
    else some acc

/-- `chunk_text(text, chunk_size, overlap)`: strip the input, return `[]` when
nothing is left, otherwise run the windowing loop (with fuel `n + 1`, which
suffices whenever `overlap < chunk_size`). -/
def chunk_text (text : List Char) (cs ov : Nat) : Option (List (List Char)) :=
  let t := pyStrip text
  if t.isEmpty then some [] else chunkLoop t cs ov (t.length + 1) 0 []

/-- The `(start, end)` windows the loop visits, for reasoning about coverage
and the overlap recurrence. -/
def chunkWindows (n cs ov : Nat) : Nat → Nat → Option (List (Nat × Nat))
  | 0, _ => none
  | fuel + 1, start =>
    if start < n then
      let e := min n (start + cs)
      if n ≤ e then some [(start, e)]
      else (chunkWindows n cs ov fuel (e - ov)).map (fun ws => (start, e) :: ws)
    else some []

/-! ## `app/services/chunking_improved.py` — `chunk_text_improved`

Paragraphs come from `text.split("\n\n")`; over-long paragraphs are split at
`[.!?]+(?:\s+|$)` boundaries; pieces are re-joined with `"\n\n"`.  The two
quirks of the Python code are kept: after flushing at paragraph level the
buffer is *not* cleared before the sentence loop, and in the small-paragraph
branch the freshly seeded overlap buffer is immediately overwritten by
`current_chunk = [para]`. -/

/-- Python `text.split("\n\n")`: split at each non-overlapping occurrence of
two consecutive newlines, scanning left to right. -/
def splitOnNlNl : List Char → List Char → List (List Char)
  | [], cur => [cur.reverse]
  | '\n' :: '\n' :: rest, cur => cur.reverse :: splitOnNlNl rest []
  | c :: rest, cur => splitOnNlNl rest (c :: cur)

/-- Sentence-ending punctuation class `[.!?]`. -/
def isSentPunct (c : Char) : Bool :=
  c = '.' || c = '!' || c = '?'

/-- `re.split(r'[.!?]+(?:\s+|$)', text)`: a split happens at each maximal
punctuation run that is followed by whitespace or the end of the string (the
greedy quantifiers make backtracking irrelevant here); the match consumes the
run and the whitespace. -/
def splitSentRaw : List Char → List Char → List (List Char)
  | [], cur => [cur.reverse]
  | c :: rest, cur =>
    if isSentPunct c then
      let after := rest.dropWhile isSentPunct
      match after with
      | [] => [cur.reverse, []]
      | d :: _ =>
        if isPySpace d then cur.reverse :: splitSentRaw (after.dropWhile isPySpace) []
        else splitSentRaw rest (c :: cur)
    else splitSentRaw rest (c :: cur)
  termination_by cs _ => cs.length
  decreasing_by
    all_goals simp_all
    · calc (List.dropWhile isPySpace (List.dropWhile isSentPunct rest)).length
          ≤ (List.dropWhile isSentPunct rest).length :=
            (List.dropWhile_suffix _).length_le
        _ ≤ rest.length := (List.dropWhile_suffix _).length_le
        _ < rest.length + 1 := Nat.lt_succ_self _

/-- `split_sentences`: split, strip each piece, drop empties. -/
def split_sentences (t : List Char) : List (List Char) :=
  ((splitSentRaw t []).map pyStrip).filter (fun s => !s.isEmpty)

/-- First match of `[.!?]\s+` in `w`: returns the index just past the matched
whitespace run (`match.end()`), scanning left to right. -/
def findPunctWsEnd : List Char → Nat → Option Nat
  | [], _ => none
  | c :: rest, i =>
    if isSentPunct c ∧ (rest.head?.elim false isPySpace) then
      some (i + 1 + (rest.takeWhile isPySpace).length)
    else findPunctWsEnd rest (i + 1)

/-- First match of `\s+` in `w`: returns the index just past the (maximal)
whitespace run. -/
def findWsEnd : List Char → Nat → Option Nat
  | [], _ => none
  | c :: rest, i =>
    if isPySpace c then some (i + 1 + (rest.takeWhile isPySpace).length)
    else findWsEnd rest (i + 1)

/-- `get_overlap_text(text, overlap_size)`: the last `overlap_size` characters,
cut after a sentence boundary if one occurs, else after the first whitespace
run, and stripped.  (`text[-0:]` in Python is the whole string.) -/
def get_overlap_text (t : List Char) (ov : Nat) : List Char :=
  if t.length ≤ ov then t
  else
    let w := if ov = 0 then t else t.drop (t.length - ov)
    match findPunctWsEnd w 0 with
    | some i => pyStrip (w.drop i)
    | none =>
      match findWsEnd w 0 with
      | some i => pyStrip (w.drop i)
      | none => pyStrip w

/-- State of the improved chunker: finished chunks, the current buffer
(`current_chunk`) and `current_length`. -/
structure CtiState where
  chunks : List (List Char)
  cur : List (List Char)
  curLen : Nat

/-- `"\n\n".join(current_chunk)`. -/
def joinParagraphs (l : List (List Char)) : List Char :=
  List.intercalate ('\n' :: '\n' :: []) l

/-- Flush the buffer: append the stripped join when it is non-empty. -/
def ctiFlush (st : CtiState) : List (List Char) :=
  if st.cur.isEmpty then st.chunks
  else
    let ct := pyStrip (joinParagraphs st.cur)
    if ct.isEmpty then st.chunks else st.chunks ++ [ct]

/-- One iteration of the inner `for sentence in sentences` loop. -/
def ctiSentStep (cs ov : Nat) (st : CtiState) (s : List Char) : CtiState :=
  if st.curLen + s.length + 1 ≤ cs then
    { st with cur := st.cur ++ [s], curLen := st.curLen + s.length + 1 }
  else
    let ch1 := ctiFlush st
    let cur1 :=
      if ¬ ch1.isEmpty ∧ 0 < ov then
        let ot := get_overlap_text (ch1.getLastD []) ov
        if ot.isEmpty then [] else [ot]
      else st.cur
    { chunks := ch1, cur := cur1 ++ [s], curLen := s.length }

/-- One iteration of the outer `for para in paragraphs` loop. -/
def ctiParaStep (cs ov : Nat) (st : CtiState) (p : List Char) : CtiState :=
  if st.curLen + p.length + 2 ≤ cs then
    { st with cur := st.cur ++ [p], curLen := st.curLen + p.length + 2 }
  else
    let ch1 := ctiFlush st
    if cs < p.length then
      (split_sentences p).foldl (ctiSentStep cs ov) { st with chunks := ch1 }
    else
      { chunks := ch1, cur := [p], curLen := p.length }

/-- `chunk_text_improved(text, chunk_size, overlap)`.  The fallback to the
simple chunker (taken when no chunk was produced) reuses `chunkLoop`, hence the
`Option`. -/
def chunk_text_improved (text : List Char) (cs ov : Nat) :
    Option (List (List Char)) :=
  let t := pyStrip text
  if t.isEmpty then some [] else
    let paragraphs := ((splitOnNlNl t []).map pyStrip).filter (fun p => !p.isEmpty)
    let st := paragraphs.foldl (ctiParaStep cs ov) ⟨[], [], 0⟩
    let chunks := ctiFlush st
    if chunks.isEmpty then chunkLoop t cs ov (t.length + 1) 0 []
    else some chunks

/-! ## `app/services/ingest.py` — chunk rows and upserted vectors

`chunking_improved` imports successfully, so `USE_IMPROVED_CHUNKING` is true
and ingestion chunks `text_to_index` with
`chunk_text_improved(text, chunk_size=900, overlap=150)`.  For chunk `i` it
upserts a vector with id `f"{doc.id}_{i}"` and adds a `Chunk` row with
`chunk_index=i`, `chunk_text=ch`, `pinecone_vector_id=vector_id`.  Embedding
and the Pinecone call are external; the vector id and chunk text they receive
are modelled. -/

structure ChunkRow where
  document_id : String
  chunk_index : Nat
  chunk_text : List Char
  pinecone_vector_id : String
  deriving DecidableEq, Repr

structure UpsertedVector where
  id : String
  text : List Char
  deriving DecidableEq, Repr

/-- The chunks ingestion indexes for a document (`text` is the text selected
for indexing: the summary for meeting minutes, the extracted text otherwise). -/
def ingestChunks (text : List Char) : List (List Char) :=
  (chunk_text_improved text 900 150).getD []

/-- The `Chunk` rows created by `ingest_document` for document `docId`. -/
def ingestChunkRows (docId : String) (text : List Char) : List ChunkRow :=
  (ingestChunks text).enum.map fun p =>
    ⟨docId, p.1, p.2, docId ++ "_" ++ toString p.1⟩

/-- The vectors `ingest_document` upserts for document `docId`. -/
def ingestVectors (docId : String) (text : List Char) : List UpsertedVector :=
  (ingestChunks text).enum.map fun p => ⟨docId ++ "_" ++ toString p.1, p.2⟩

/-- Contiguous-substring test: `a` occurs as a contiguous run inside `b`. -/
def isSubstrOf (a b : List Char) : Bool :=
  b.tails.any fun t => a.isPrefixOf t

/-! ## `app/services/hybrid_search.py`

Scores are embedded as `ℚ`; the semantic matches returned by the Pinecone
query are an input (`SemMatch`: the match score and the metadata, `none`
modelling the falsy-metadata case the code skips).  A pair of weights with
`total_weight == 0` makes the Python rescaling raise `ZeroDivisionError`,
hence the `Except`. -/

/-- `\w` for lower-cased ASCII text: letters, digits, underscore. -/
def isWordChar (c : Char) : Bool :=
  (('a' ≤ c ∧ c ≤ 'z') || ('A' ≤ c ∧ c ≤ 'Z') || ('0' ≤ c ∧ c ≤ '9') || c = '_')

/-- `[a-z0-9]` (the keyword character class, applied to lower-cased text). -/
def isKwChar (c : Char) : Bool :=
  (('a' ≤ c ∧ c ≤ 'z') || ('0' ≤ c ∧ c ≤ '9'))

/-- Maximal runs of `\w` characters, left to right. -/
def wordRuns : List Char → List (List Char)
  | [] => []
  | c :: rest =>
    if isWordChar c then
      (c :: rest.takeWhile isWordChar) :: wordRuns (rest.dropWhile isWordChar)
    else wordRuns rest
  termination_by cs => cs.length
  decreasing_by
    all_goals simp_all
    exact Nat.lt_succ_of_le ((List.dropWhile_suffix _).length_le)

/-- The stop-word list of `extract_keywords` (as written in the source). -/
def stopWords : List (List Char) :=
  ["the", "a", "an", "is", "are", "was", "were", "be", "been", "being",
   "have", "has", "had", "do", "does", "did", "will", "would", "should",
   "can", "could", "may", "might", "must", "to", "of", "in", "on", "at",
   "for", "with", "by", "from", "as", "about", "into", "through", "during",
   "what", "which", "who", "when", "where", "why", "how", "this", "that",
   "these", "those", "i", "you", "he", "she", "it", "we", "they", "me",
   "him", "her", "us", "them", "my", "your", "his", "her", "its", "our",
   "their"].map String.data

/-- `extract_keywords(query)`: `re.findall(r'\b[a-z0-9]{3,}\b', query.lower())`
(a match is a maximal `\w` run that consists of `[a-z0-9]` only and has at
least 3 characters), minus stop words, first 10. -/
def extract_keywords (query : List Char) : List (List Char) :=
  let words := (wordRuns (pyLower query)).filter fun w =>
    3 ≤ w.length ∧ w.all isKwChar
  (words.filter fun w => ¬ w ∈ stopWords).take 10

/-- `keyword_score(text, keywords)`: 0 with no keywords, else
`min(1, matches / len(keywords))` where a keyword matches when it occurs in
`text.lower()` as a substring. -/
def keyword_score (text : List Char) (keywords : List (List Char)) : ℚ :=
  if keywords.isEmpty then 0
  else
    let hits := keywords.countP fun k => isSubstrOf k (pyLower text)
    min 1 ((hits : ℚ) / (keywords.length : ℚ))

/-- A Pinecone match: the similarity score and the metadata text (`none` for
falsy metadata, which the loop skips; a falsy `text` is skipped as well). -/
structure SemMatch where
  score : ℚ
  md : Option (List Char)

/-- A combined result (the metadata dict after the score fields are set). -/
structure HSResult where
  text : List Char
  similarity_score : ℚ
  semantic_score : ℚ
  keyword_score : ℚ

/-- `hybrid_search`: rescale the weights when their sum is not 1 (raising on a
zero sum), score each match, keep those reaching `min_score`, sort by combined
score descending (Python `list.sort` is stable; `mergeSort` with the reversed
order matches it), truncate to `top_k`. -/
def hybrid_search (semMatches : List SemMatch) (query : List Char) (top_k : Nat)
    (min_score semantic_weight keyword_weight : ℚ) :
    Except Unit (List HSResult) :=
  let total := semantic_weight + keyword_weight
  if total ≠ 1 ∧ total = 0 then .error ()
  else
    let sw := if total = 1 then semantic_weight else semantic_weight / total
    let kw := if total = 1 then keyword_weight else keyword_weight / total
    let keywords := extract_keywords query
    let results := semMatches.filterMap fun m =>
      m.md.bind fun t =>
        if t.isEmpty then none
        else
          let ks := keyword_score t keywords
          let comb := m.score * sw + ks * kw
          if min_score ≤ comb then some ⟨t, comb, m.score, ks⟩ else none
    .ok ((results.mergeSort fun a b => b.similarity_score ≤ a.similarity_score).take top_k)

/-! ## `app/services/chatbot_rag.py` — dates and the temporal filter -/

/-- A naive datetime, compared lexicographically like Python `datetime`. -/
structure PyDateTime where
  year : Nat
  month : Nat
  day : Nat
  hour : Nat
  minute : Nat
  second : Nat
  micro : Nat
  deriving DecidableEq, Repr

/-- Python datetime order: lexicographic on the components. -/
def PyDateTime.fields (a : PyDateTime) : List Nat :=
  [a.year, a.month, a.day, a.hour, a.minute, a.second, a.micro]

def PyDateTime.lt (a b : PyDateTime) : Bool :=
  decide (a.fields < b.fields)

/-- Gregorian leap year, as `datetime` validates dates. -/
def isLeapYear (y : Nat) : Bool :=
  (y % 4 = 0 ∧ y % 100 ≠ 0) || y % 400 = 0

def daysInMonth (y m : Nat) : Nat :=
  if m = 2 then (if isLeapYear y then 29 else 28)
  else if m = 4 || m = 6 || m = 9 || m = 11 then 30
  else 31

/-- `datetime(year, month, day)`: `none` when the arguments are out of range
(the code catches the resulting exception and skips the temporal filter). -/
def mkDateTime (y m d : Nat) : Option PyDateTime :=
  if 1 ≤ m ∧ m ≤ 12 ∧ 1 ≤ d ∧ d ≤ daysInMonth y m then
    some ⟨y, m, d, 0, 0, 0, 0⟩
  else none

def digitVal (c : Char) : Nat := c.toNat - '0'.toNat

def digitsToNat (l : List Char) : Nat :=
  l.foldl (fun acc c => acc * 10 + digitVal c) 0

def takeDigits (l : List Char) : List Char := l.takeWhile Char.isDigit

/-- Parse a fixed-width digit field. -/
def parseDigits (l : List Char) (k : Nat) : Option (Nat × List Char) :=
  let ds := l.take k
  if ds.length = k ∧ ds.all Char.isDigit then some (digitsToNat ds, l.drop k)
  else none

def expectChar (l : List Char) (c : Char) : Option (List Char) :=
  match l with
  | d :: rest => if d = c then some rest else none
  | [] => none

/-- `datetime.fromisoformat` on the canonical strings `uploaded_at` holds
(`datetime.utcnow().isoformat()`: `YYYY-MM-DDTHH:MM:SS` with an optional
`.ffffff` fraction); out-of-range components are rejected. -/
def parseIsoDateTime (s : List Char) : Option PyDateTime := do
  let (y, r) ← parseDigits s 4
  let r ← expectChar r '-'
  let (mo, r) ← parseDigits r 2
  let r ← expectChar r '-'
  let (d, r) ← parseDigits r 2
  let r ← expectChar r 'T'
  let (h, r) ← parseDigits r 2
  let r ← expectChar r ':'
  let (mi, r) ← parseDigits r 2
  let r ← expectChar r ':'
  let (sec, r) ← parseDigits r 2
  let (us, r) ←
    match r with
    | [] => some (0, ([] : List Char))
    | '.' :: rest => (parseDigits rest 6).map fun p => (p.1, p.2)
    | _ => none
  if r = [] ∧ 1 ≤ mo ∧ mo ≤ 12 ∧ 1 ≤ d ∧ d ≤ daysInMonth y mo ∧
      h ≤ 23 ∧ mi ≤ 59 ∧ sec ≤ 59 then
    pure ⟨y, mo, d, h, mi, sec, us⟩
  else none

/-- The month-name table of `chatbot_query`. -/
def monthMap : List (List Char × Nat) :=
  [("january", 1), ("february", 2), ("march", 3), ("april", 4), ("may", 5),
   ("june", 6), ("july", 7), ("august", 8), ("september", 9), ("october", 10),
   ("november", 11), ("december", 12)].map fun p => (p.1.data, p.2)

/-- `_strip_day_suffix`: drop the first of `st`, `nd`, `rd`, `th` the (lower
cased) day string ends with, then read the number. -/
def strip_day_suffix (l : List Char) : Nat :=
  let suffixes : List (List Char) := ["st".data, "nd".data, "rd".data, "th".data]
  let stripped :=
    match suffixes.find? (fun suf => suf.isSuffixOf l) with
    | some suf => l.take (l.length - suf.length)
    | none => l
  digitsToNat stripped

def ciChar (a b : Char) : Bool := a.toLower = b.toLower

/-- Case-insensitive literal match; returns the rest on success. -/
def ciPrefixDrop (w : List Char) (l : List Char) : Option (List Char) :=
  match w, l with
  | [], rest => some rest
  | _ :: _, [] => none
  | a :: ws, c :: rest => if ciChar a c then ciPrefixDrop ws rest else none

def isAsciiLetter (c : Char) : Bool :=
  ('a' ≤ c ∧ c ≤ 'z') || ('A' ≤ c ∧ c ≤ 'Z')

/-- Try `before\s+([A-Za-z]+)\s+(\d{1,2}(?:st|nd|rd|th)?)` (IGNORECASE) at the
head of `l`: the month capture is the maximal letter run, the day capture the
first one or two digits of the digit run plus an optional ordinal suffix. -/
def beforeMatchHere (l : List Char) : Option (List Char × List Char) := do
  let r ← ciPrefixDrop "before".data l
  let _ ← if r.head?.elim false isPySpace then some () else none
  let r := r.dropWhile isPySpace
  let month := r.takeWhile isAsciiLetter
  let _ ← if month.isEmpty then none else some ()
  let r := r.drop month.length
  let _ ← if r.head?.elim false isPySpace then some () else none
  let r := r.dropWhile isPySpace
  let digits := (takeDigits r).take 2
  let _ ← if digits.isEmpty then none else some ()
  let r := r.drop digits.length
  let suf :=
    (["st".data, "nd".data, "rd".data, "th".data].find? fun suf =>
      (ciPrefixDrop suf r).isSome).getD []
  pure (month, digits ++ r.take suf.length)

/-- `re.search` of the "before Month Day" pattern: first position where the
pattern matches (the captures of the leftmost match). -/
def findBeforePhrase : List Char → Option (List Char × List Char)
  | [] => none
  | c :: rest =>
    match beforeMatchHere (c :: rest) with
    | some caps => some caps
    | none => findBeforePhrase rest

/-- Step 0.3 of `chatbot_query`: build the `before` cutoff from the query, the
month map and `datetime(current_year, month, day)`; parsing failures are
swallowed. -/
def detectBeforeCutoff (year : Nat) (query : List Char) : Option PyDateTime := do
  let (monthName, dayRaw) ← findBeforePhrase query
  let month ← (monthMap.find? fun p => p.1 = pyLower monthName).map Prod.snd
  mkDateTime year month (strip_day_suffix (pyLower dayRaw))

/-- The metadata of a retrieved chunk, as the filtering steps read it
(`chunk.get(...)` is `none` when the key is missing). -/
structure ChunkMeta where
  customer_id : Option String
  doc_type : Option String
  uploaded_at : Option (List Char)
  text : List Char
  deriving DecidableEq, Repr

/-- Does the chunk parse to a datetime strictly before the cutoff? -/
def chunkBefore (cutoff : PyDateTime) (ch : ChunkMeta) : Bool :=
  match ch.uploaded_at with
  | none => false
  | some s =>
    match parseIsoDateTime s with
    | none => false
    | some dt => PyDateTime.lt dt cutoff

/-- Step 1.1 of `chatbot_query`: with a cutoff and a non-empty chunk list,
keep the chunks strictly before the cutoff — but only when at least one chunk
survives (`if filtered_chunks: chunks = filtered_chunks`). -/
def applyTemporalFilter (cutoff : Option PyDateTime) (chunks : List ChunkMeta) :
    List ChunkMeta :=
  match cutoff with
  | none => chunks
  | some dt =>
    if chunks.isEmpty then chunks
    else
      let filtered := chunks.filter (chunkBefore dt)
      if filtered.isEmpty then chunks else filtered

/-- Step 1.5 of `chatbot_query`: with a target customer, put that customer's
chunks first (questionnaire-response or proposal chunks first among them when
the query asks for those), append at most two chunks of other customers, and
truncate to `top_k`; with no target chunk at all, keep up to `top_k` others. -/
def applyCustomerFilter (target : Option String) (isQResp isProp : Bool)
    (top_k : Nat) (chunks : List ChunkMeta) : List ChunkMeta :=
  match target with
  | none => chunks
  | some cid =>
    if chunks.isEmpty then chunks
    else
      let targetChunks := chunks.filter fun c => c.customer_id = some cid
      let otherChunks := chunks.filter fun c => c.customer_id ≠ some cid
      if targetChunks.isEmpty then
        otherChunks.take (min top_k otherChunks.length)
      else
        let ordered :=
          if isQResp then
            (targetChunks.filter fun c => c.doc_type = some "questionnaire_response") ++
            (targetChunks.filter fun c => c.doc_type ≠ some "questionnaire_response") ++
            otherChunks.take (min 2 otherChunks.length)
          else if isProp then
            (targetChunks.filter fun c => c.doc_type = some "proposal") ++
            (targetChunks.filter fun c => c.doc_type ≠ some "proposal") ++
            otherChunks.take (min 2 otherChunks.length)
          else
            targetChunks ++ otherChunks.take (min 2 otherChunks.length)
        ordered.take top_k

/-! ## `app/services/chatbot_rag.py` — `extract_customer_from_query`

The regexes are embedded as character scanners (ASCII scope).  `\b` before a
word requires the previous character to be a non-word character (or the start
of the string); greedy runs followed by a token that cannot match the run's
characters need no backtracking, so maximal-run scanning is exact here. -/

/-- A simple search pattern: a literal word, a `\s+` gap, or an alternation of
literal words (all the general-query patterns have this shape once the one
optional group is expanded). -/
inductive RPat where
  | lit (w : List Char)
  | ws
  | alts (ws : List (List Char))

/-- Match a pattern sequence at the head of `cs`. -/
def matchSeqP : List RPat → List Char → Bool
  | [], _ => true
  | .lit w :: rest, cs => w.isPrefixOf cs && matchSeqP rest (cs.drop w.length)
  | .ws :: rest, cs =>
      cs.head?.elim false isPySpace && matchSeqP rest (cs.dropWhile isPySpace)
  | .alts ws :: rest, cs =>
      ws.any fun w => w.isPrefixOf cs && matchSeqP rest (cs.drop w.length)

/-- `re.search` of a `\b`-anchored pattern: try every position whose previous
character is not a word character. -/
def searchBoundary (pats : List RPat) : Option Char → List Char → Bool
  | prev, cs =>
    (prev.elim true (fun p => ¬ isWordChar p) && matchSeqP pats cs) ||
    (match cs with
     | [] => false
     | c :: rest => searchBoundary pats (some c) rest)

def litW (s : String) : RPat := .lit s.data

/-- The `general_patterns` list (the optional group of
`\bacross\s+(all\s+)?customers` is expanded into its two alternatives). -/
def generalPatterns : List (List RPat) :=
  [[litW "customers", .ws, .alts (["are", "were", "have", "said", "say",
      "saying", "need", "needs", "want", "wants"].map String.data)],
   [litW "all", .ws, litW "customers"],
   [litW "what", .ws, litW "customers"],
   [litW "show", .ws, litW "me", .ws, litW "what", .ws, litW "customers"],
   [litW "customers", .ws, .alts (["who", "which", "that"].map String.data)],
   [litW "across", .ws, litW "all", .ws, litW "customers"],
   [litW "across", .ws, litW "customers"]]

/-- Does the lower-cased query match one of the general plural-customer
patterns? -/
def matchesGeneralPattern (ql : List Char) : Bool :=
  generalPatterns.any fun pats => searchBoundary pats none ql

/-- After `customer\s+`: match `([A-Z]?\d+)\b` (IGNORECASE) and return the
capture — an optional letter, then the maximal digit run, which must be
followed by a non-word character or the end. -/
def customerRefHere (cs : List Char) : Option (List Char) :=
  let (letterPart, r1) :=
    match cs with
    | c :: rest => if isAsciiLetter c then ([c], rest) else ([], cs)
    | [] => ([], cs)
  let digits := takeDigits r1
  if digits.isEmpty then none
  else
    let rest := r1.drop digits.length
    if rest.head?.elim true (fun c => ¬ isWordChar c) then
      some (letterPart ++ digits)
    else none

/-- `re.findall(r'\bcustomer\s+([A-Z]?\d+)\b', query, re.IGNORECASE)`:
captures in order of occurrence. -/
def findallCustomerExplicit : Option Char → List Char → List (List Char)
  | prev, cs =>
    let hit :=
      if prev.elim true (fun p => ¬ isWordChar p) then
        match ciPrefixDrop "customer".data cs with
        | some r =>
          if r.head?.elim false isPySpace then
            customerRefHere (r.dropWhile isPySpace)
          else none
        | none => none
      else none
    match cs with
    | [] => hit.elim [] (fun c => [c])
    | c :: rest =>
      match hit with
      | some cap => cap :: findallCustomerExplicit (some c) rest
      | none => findallCustomerExplicit (some c) rest

/-- `\b([A-Z]\d+)\b` (IGNORECASE) at the head: a letter, the maximal digit run,
a trailing boundary. -/
def standaloneRefHere (cs : List Char) : Option (List Char) :=
  match cs with
  | c :: rest =>
    if isAsciiLetter c then
      let digits := takeDigits rest
      if digits.isEmpty then none
      else if (rest.drop digits.length).head?.elim true (fun d => ¬ isWordChar d) then
        some (c :: digits)
      else none
    else none
  | [] => none

/-- `re.findall(r'\b([A-Z]\d+)\b', query, re.IGNORECASE)`. -/
def findallStandalone : Option Char → List Char → List (List Char)
  | prev, cs =>
    let hit :=
      if prev.elim true (fun p => ¬ isWordChar p) then standaloneRefHere cs
      else none
    match cs with
    | [] => hit.elim [] (fun c => [c])
    | c :: rest =>
      match hit with
      | some cap => cap :: findallStandalone (some c) rest
      | none => findallStandalone (some c) rest

/-- `[A-Z]\d+` (IGNORECASE) at the head (no trailing boundary). -/
def letterDigitsHere (cs : List Char) : Bool :=
  match cs with
  | c :: rest => isAsciiLetter c && ¬ (takeDigits rest).isEmpty
  | [] => false

/-- `specific_context_patterns` (searched with IGNORECASE):
`\b(for|about|from|to|with)\s+[A-Z]\d+`, `[A-Z]\d+\'s`, `\bcustomer\s+[A-Z]\d+`. -/
def hasSpecificContextAt : Option Char → List Char → Bool
  | prev, cs =>
    let boundary := prev.elim true (fun p => ¬ isWordChar p)
    let p1 :=
      boundary &&
        (["for", "about", "from", "to", "with"].map String.data).any fun w =>
          match ciPrefixDrop w cs with
          | some r => r.head?.elim false isPySpace &&
              letterDigitsHere (r.dropWhile isPySpace)
          | none => false
    let p2 :=
      match cs with
      | c :: rest =>
        isAsciiLetter c &&
          (let digits := takeDigits rest
           ¬ digits.isEmpty &&
             (ciPrefixDrop "\'s".data (rest.drop digits.length)).isSome)
      | [] => false
    let p3 :=
      boundary &&
        (match ciPrefixDrop "customer".data cs with
         | some r => r.head?.elim false isPySpace &&
             letterDigitsHere (r.dropWhile isPySpace)
         | none => false)
    p1 || p2 || p3 ||
      (match cs with
       | [] => false
       | c :: rest => hasSpecificContextAt (some c) rest)

/-- A customer row as the lookup sees it: id and name. -/
structure CustomerRow where
  id : String
  name : String
  deriving DecidableEq, Repr

/-- `Customer.name.ilike(ref)` with no wildcard in `ref`: case-insensitive
equality. -/
def ilikeEq (name : String) (ref : List Char) : Bool :=
  pyLower name.data = pyLower ref

/-- The `for match in matches: ... first()` loop: the id of the first
reference that resolves to a customer. -/
def firstCustomerFor (refs : List (List Char)) (customers : List CustomerRow) :
    Option String :=
  match refs with
  | [] => none
  | r :: rest =>
    match customers.find? fun c => ilikeEq c.name r with
    | some c => some c.id
    | none => firstCustomerFor rest customers

/-- `extract_customer_from_query(query, db_session)` with the customer table
passed explicitly (`db_session.query(models.Customer)`). -/
def extract_customer_from_query (query : List Char)
    (customers : List CustomerRow) : Option String :=
  let ql := pyLower query
  if matchesGeneralPattern ql then none
  else
    match firstCustomerFor (findallCustomerExplicit none query) customers with
    | some cid => some cid
    | none =>
      let m2 := findallStandalone none query
      if ¬ m2.isEmpty ∧ hasSpecificContextAt none query then
        firstCustomerFor m2 customers
      else none

/-! ## `app/services/chatbot_rag.py` — the chunk pipeline of `chatbot_query`

Retrieval (Pinecone queries, embeddings, intent expansion) is external: the
list of retrieved chunks and the two doc-type flags are inputs.  The pipeline
embeds step 0 (the greeting early-return, which passes no chunks to
generation), step 0.3 (the temporal cutoff), step 1.1 and step 1.5; its result
is the chunk list handed to `generate_chatbot_response`. -/

def greetingPatterns : List (List Char) :=
  ["hello", "hi", "hey", "greetings", "good morning", "good afternoon",
   "good evening", "howdy", "sup", "what\'s up", "hey there", "hi there"].map
    String.data

/-- Step 0: is the (lower-cased, stripped) query a greeting? -/
def isGreetingQuery (query : List Char) : Bool :=
  let ql := pyStrip (pyLower query)
  ql ∈ greetingPatterns || greetingPatterns.any fun g => g.isPrefixOf ql

/-- The chunk list `chatbot_query` passes to response generation: `none` on
the greeting path (no generation), otherwise the retrieved chunks after the
temporal and customer filters. -/
def chatbotChunksForGeneration (year : Nat) (query : List Char)
    (customers : List CustomerRow) (isQResp isProp : Bool) (top_k : Nat)
    (retrieved : List ChunkMeta) : Option (List ChunkMeta) :=
  if isGreetingQuery query then none
  else
    let target := extract_customer_from_query query customers
    let cutoff := detectBeforeCutoff year query
    some (applyCustomerFilter target isQResp isProp top_k
      (applyTemporalFilter cutoff retrieved))

/-! ## `app/routes/resources.py` — the resource hour-budget operations

The database is explicit state.  Every route commits only at the end, and
`get_db` closes the session without committing, so a raised `HTTPException`
discards the session's pending mutations: a failing operation returns the
original state together with the status code (`Option Nat`, `none` meaning
success). -/

structure Resource where
  total_hours : Int
  available_hours : Int
  deriving DecidableEq, Repr

structure ProjectResource where
  id : String
  project_id : String
  resource_id : String
  allocated_hours : Int
  hours_committed : Bool
  deriving DecidableEq, Repr

structure ResState where
  resources : List (String × Resource)
  assignments : List ProjectResource
  deriving DecidableEq, Repr

def ResState.lookupRes (s : ResState) (rid : String) : Option Resource :=
  (s.resources.find? fun p => p.1 = rid).map Prod.snd

/-- Replace the stored resource `rid` by `r`. -/
def ResState.setRes (s : ResState) (rid : String) (r : Resource) : ResState :=
  { s with resources := s.resources.map fun p => if p.1 = rid then (rid, r) else p }

def ResState.mapAsg (s : ResState) (aid : String)
    (f : ProjectResource → ProjectResource) : ResState :=
  { s with assignments := s.assignments.map fun a => if a.id = aid then f a else a }

/-- `sum(pr.allocated_hours for pr in resource.assignments if pr.hours_committed)`. -/
def committedHours (s : ResState) (rid : String) : Int :=
  ((s.assignments.filter fun a => a.resource_id = rid ∧ a.hours_committed).map
    (fun a => a.allocated_hours)).sum

/-- `create_global_resource`: a new resource starts with
`available_hours = total_hours`. -/
def create_global_resource (s : ResState) (rid : String) (total : Int) : ResState :=
  { s with resources := s.resources ++ [(rid, ⟨total, total⟩)] }

/-- `assign_resource_to_project`: check `total - committed` availability, then
add an uncommitted assignment without touching `available_hours`. -/
def assign_resource_to_project (s : ResState) (aid pid rid : String)
    (alloc : Int) : ResState × Option Nat :=
  match s.lookupRes rid with
  | none => (s, some 404)
  | some r =>
    if r.total_hours - committedHours s rid < alloc then (s, some 400)
    else ({ s with assignments := s.assignments ++ [⟨aid, pid, rid, alloc, false⟩] },
          none)

/-- The body of the `activate_project_resources` loop over one assignment. -/
def activateStep (acc : Except Unit ResState) (a : ProjectResource) :
    Except Unit ResState :=
  match acc with
  | .error e => .error e
  | .ok st =>
    match st.lookupRes a.resource_id with
    | some r =>
      if a.allocated_hours ≤ r.available_hours then
        .ok (((st.setRes a.resource_id
          { r with available_hours := r.available_hours - a.allocated_hours }).mapAsg
            a.id fun x => { x with hours_committed := true }))
      else .error ()
    | none => .error ()

/-- `activate_project_resources`: deduct hours for each uncommitted assignment
of the project; any shortfall raises 400 and rolls the whole operation back. -/
def activate_project_resources (s : ResState) (pid : String) :
    ResState × Option Nat :=
  let asgs := s.assignments.filter fun a => a.project_id = pid ∧ ¬ a.hours_committed
  match asgs.foldl activateStep (.ok s) with
  | .ok st => (st, none)
  | .error _ => (s, some 400)

/-- `deactivate_project_resources`: return hours for each committed assignment
of the project (assignments whose resource is missing are skipped). -/
def deactivate_project_resources (s : ResState) (pid : String) :
    ResState × Option Nat :=
  let asgs := s.assignments.filter fun a => a.project_id = pid ∧ a.hours_committed
  let st := asgs.foldl (fun st a =>
    match st.lookupRes a.resource_id with
    | some r =>
      (st.setRes a.resource_id
        { r with available_hours := r.available_hours + a.allocated_hours }).mapAsg
          a.id fun x => { x with hours_committed := false }
    | none => st) s
  (st, none)

/-- `update_project_resource`: the literal translation, including the handling
of a resource switch and of an allocation change.  Hours are returned and
deducted without consulting `hours_committed`. -/
def update_project_resource (s : ResState) (pid aid : String)
    (newRid : Option String) (newAlloc : Option Int) : ResState × Option Nat :=
  match s.assignments.find? fun a => a.id = aid ∧ a.project_id = pid with
  | none => (s, some 404)
  | some asg =>
    -- resource switch
    let switch : Except Nat (ResState × String) :=
      match newRid with
      | some nr =>
        if nr ≠ asg.resource_id then
          match s.lookupRes nr with
          | none => .error 404
          | some _ =>
            -- return hours to the previous resource (when it exists)
            let st1 :=
              match s.lookupRes asg.resource_id with
              | some cur => s.setRes asg.resource_id
                  { cur with available_hours := cur.available_hours + asg.allocated_hours }
              | none => s
            let hoursNeeded := newAlloc.getD asg.allocated_hours
            match st1.lookupRes nr with
            | some newRes =>
              if newRes.available_hours < hoursNeeded then .error 400
              else
                .ok ((st1.setRes nr
                  { newRes with available_hours := newRes.available_hours - hoursNeeded }).mapAsg
                    aid (fun x => { x with resource_id := nr }), nr)
            | none => .error 400
        else .ok (s, asg.resource_id)
      | none => .ok (s, asg.resource_id)
    match switch with
    | .error e => (s, some e)
    | .ok (st1, curRid) =>
      -- allocation change
      match newAlloc with
      | none => (st1, none)
      | some na =>
        let diff := na - asg.allocated_hours
        if 0 < diff then
          match st1.lookupRes curRid with
          | some cur =>
            if cur.available_hours < diff then (s, some 400)
            else
              ((st1.setRes curRid
                { cur with available_hours := cur.available_hours - diff }).mapAsg
                  aid fun x => { x with allocated_hours := na }, none)
          | none => (s, some 400)
        else if diff < 0 then
          let st2 :=
            match st1.lookupRes curRid with
            | some cur => st1.setRes curRid
                { cur with available_hours := cur.available_hours + (-diff) }
            | none => st1
          (st2.mapAsg aid fun x => { x with allocated_hours := na }, none)
        else (st1.mapAsg aid fun x => { x with allocated_hours := na }, none)

/-- `delete_project_resource`: return the hours only when they were committed,
then remove the assignment. -/
def delete_project_resource (s : ResState) (pid aid : String) :
    ResState × Option Nat :=
  match s.assignments.find? fun a => a.id = aid ∧ a.project_id = pid with
  | none => (s, some 404)
  | some asg =>
    let st1 :=
      if asg.hours_committed then
        match s.lookupRes asg.resource_id with
        | some r => s.setRes asg.resource_id
            { r with available_hours := r.available_hours + asg.allocated_hours }
        | none => s
      else s
    ({ st1 with assignments := st1.assignments.filter fun a => ¬ a.id = aid }, none)

/-- The hour-budget invariant of claim C1: every resource's stored
`available_hours` is its `total_hours` minus the committed allocations, and
lies between 0 and `total_hours`. -/
def hourBudgetInvariant (s : ResState) : Prop :=
  ∀ p ∈ s.resources,
    (p.2).available_hours = (p.2).total_hours - committedHours s p.1 ∧
    0 ≤ (p.2).available_hours ∧ (p.2).available_hours ≤ (p.2).total_hours

instance (s : ResState) : Decidable (hourBudgetInvariant s) := by
  unfold hourBudgetInvariant; infer_instance

/-! ## `app/routes/projects.py` — project-number uniqueness -/

structure Project where
  id : String
  project_number : String
  project_name : String
  customer_id : String
  deriving DecidableEq, Repr

structure ProjState where
  customers : List String
  projects : List Project
  deriving DecidableEq, Repr

/-- `create_project`: 404 for a missing customer, 400 when another project
already holds the requested number, otherwise insert. -/
def create_project (s : ProjState) (newId : String)
    (number name customerId : String) : ProjState × Option Nat :=
  if ¬ customerId ∈ s.customers then (s, some 404)
  else if (s.projects.find? fun p => p.project_number = number).isSome then
    (s, some 400)
  else ({ s with projects := s.projects ++ [⟨newId, number, name, customerId⟩] }, none)

/-- The `ProjectUpdate` payload fields the uniqueness claim involves
(`none` = field not sent). -/
structure ProjectUpdatePayload where
  project_number : Option String
  project_name : Option String
  customer_id : Option String
  deriving DecidableEq, Repr

/-- `update_project`: 404 for a missing project or a missing new customer, 400
when changing the number to one another project holds, otherwise apply the
sent fields. -/
def update_project (s : ProjState) (pid : String) (u : ProjectUpdatePayload) :
    ProjState × Option Nat :=
  match s.projects.find? fun p => p.id = pid with
  | none => (s, some 404)
  | some proj =>
    let custMissing : Bool :=
      match u.customer_id with
      | some c => c ≠ proj.customer_id ∧ ¬ c ∈ s.customers
      | none => false
    let numberTaken : Bool :=
      match u.project_number with
      | some m => m ≠ proj.project_number ∧
          (s.projects.find? fun p => p.project_number = m).isSome
      | none => false
    if custMissing then (s, some 404)
    else if numberTaken then (s, some 400)
    else
      ({ s with projects := s.projects.map fun p =>
          if p.id = pid then
            { p with
              project_number := u.project_number.getD p.project_number,
              project_name := u.project_name.getD p.project_name,
              customer_id := u.customer_id.getD p.customer_id }
          else p }, none)

/-- No two projects share a `project_number`. -/
def uniqueNumbers (s : ProjState) : Prop :=
  (s.projects.map fun p => p.project_number).Nodup

/-! ## `app/routes/invoices.py` — invoice aggregation -/

def compute_line_total (quantity unit_price : ℚ) : ℚ := quantity * unit_price

structure LineItemIn where
  category : String
  description : String
  quantity : ℚ
  unit_price : ℚ

structure LineItem where
  category : String
  quantity : ℚ
  unit_price : ℚ
  total : ℚ

structure Invoice where
  line_items : List LineItem
  subtotal : ℚ
  tax : ℚ
  total : ℚ

/-- `create_invoice`: each payload item becomes a row with
`total = quantity * unit_price`; `subtotal` accumulates the rows; the invoice
total is `subtotal + tax`. -/
def create_invoice (tax : ℚ) (items : List LineItemIn) : Invoice :=
  let rows := items.map fun li =>
    ⟨li.category, li.quantity, li.unit_price, compute_line_total li.quantity li.unit_price⟩
  let subtotal := (rows.map fun r => r.total).sum
  ⟨rows, subtotal, tax, subtotal + tax⟩

structure TimeEntry where
  employee_id : String
  hours : ℚ

structure Employee where
  hourly_rate : ℚ

structure BillingExpense where
  expense_type : String
  amount : ℚ

/-- Labor line items of `generate_invoice`: entries with no employee are
skipped, and so are entries whose `hours * rate` is not strictly positive. -/
def laborItems (empOf : String → Option Employee) (entries : List TimeEntry) :
    List LineItem :=
  entries.filterMap fun e =>
    match empOf e.employee_id with
    | none => none
    | some emp =>
      let total := e.hours * emp.hourly_rate
      if total ≤ 0 then none
      else some ⟨"labor", e.hours, emp.hourly_rate, total⟩

/-- Expense line items of `generate_invoice`: non-positive amounts are
skipped; quantity 1, unit price = amount. -/
def expenseItems (expenses : List BillingExpense) : List LineItem :=
  expenses.filterMap fun ex =>
    if ex.amount ≤ 0 then none
    else
      let cat := if ex.expense_type ∈ ["vendor", "consultant", "outsourcing"]
        then "vendor" else "subscription"
      some ⟨cat, 1, ex.amount, ex.amount⟩

/-- `generate_invoice`: the queried time entries and expenses are inputs (the
date filters run in the database); `tax = subtotal * tax_rate`,
`total = subtotal + tax`. -/
def generate_invoice (empOf : String → Option Employee)
    (entries : List TimeEntry) (expenses : List BillingExpense)
    (tax_rate : ℚ) (includeTime includeExpenses : Bool) : Invoice :=
  let items :=
    (if includeTime then laborItems empOf entries else []) ++
    (if includeExpenses then expenseItems expenses else [])
  let subtotal := (items.map fun r => r.total).sum
  let tax := subtotal * tax_rate
  ⟨items, subtotal, tax, subtotal + tax⟩

/-! ## `app/routes/documents.py` — soft-delete semantics

Storage, Pinecone and R2 calls are external side effects; the database rows
and the 404/400 decisions are modelled.  `deleted_at` is an abstract timestamp
(`Option Nat`). -/

structure DocumentRow where
  id : String
  customer_id : String
  project_id : Option String
  document_category : String
  doc_type : String
  filename : String
  storage_provider : String
  storage_key : Option String
  deleted_at : Option Nat
  deriving DecidableEq, Repr

structure DocState where
  customers : List String
  documents : List DocumentRow
  deriving DecidableEq, Repr

/-- `list_customer_documents`: 404 for a missing customer; otherwise the
customer's non-deleted documents, optionally filtered by project and
category. -/
def list_customer_documents (s : DocState) (cid : String)
    (pid : Option String) (cat : Option String) :
    Except Nat (List DocumentRow) :=
  if ¬ cid ∈ s.customers then .error 404
  else .ok (s.documents.filter fun d =>
    d.customer_id = cid ∧ d.deleted_at = none ∧
    (match pid with | some p => decide (d.project_id = some p) | none => true) = true ∧
    (match cat with | some c => decide (d.document_category = c) | none => true) = true)

/-- `_get_document_file` (the shared lookup of the view/download endpoints):
404 for a missing customer or when no matching non-deleted document exists. -/
def get_document_file (s : DocState) (cid did : String) :
    Except Nat DocumentRow :=
  if ¬ cid ∈ s.customers then .error 404
  else
    match s.documents.find? fun d =>
        d.id = did ∧ d.customer_id = cid ∧ d.deleted_at = none with
    | none => .error 404
    | some d => .ok d

structure DocumentUpdatePayload where
  doc_type : Option String
  filename : Option String
  project_id : Option String
  deriving DecidableEq, Repr

/-- `update_document`: same 404 checks, then apply the sent fields. -/
def update_document (s : DocState) (cid did : String)
    (u : DocumentUpdatePayload) : Except Nat (DocState × DocumentRow) :=
  if ¬ cid ∈ s.customers then .error 404
  else
    match s.documents.find? fun d =>
        d.id = did ∧ d.customer_id = cid ∧ d.deleted_at = none with
    | none => .error 404
    | some d =>
      let d2 := { d with
        doc_type := u.doc_type.getD d.doc_type,
        filename := u.filename.getD d.filename,
        project_id := match u.project_id with
          | some p => some p
          | none => d.project_id }
      .ok ({ s with documents := s.documents.map fun x =>
              if x.id = did ∧ x.customer_id = cid ∧ x.deleted_at = none then d2 else x },
           d2)

/-- `delete_document`: soft delete — the row is kept, `deleted_at` is set. -/
def delete_document (s : DocState) (cid did : String) (now : Nat) :
    Except Nat DocState :=
  if ¬ cid ∈ s.customers then .error 404
  else
    match s.documents.find? fun d =>
        d.id = did ∧ d.customer_id = cid ∧ d.deleted_at = none with
    | none => .error 404
    | some _ =>
      .ok { s with documents := s.documents.map fun x =>
        if x.id = did ∧ x.customer_id = cid ∧ x.deleted_at = none then
          { x with deleted_at := some now }
        else x }

/-- `get_document_download_url`: 404 when no non-deleted document has the id,
400 when it is not stored in R2; the presigned URL itself is external. -/
def get_document_download_url (s : DocState) (did : String) :
    Except Nat DocumentRow :=
  match s.documents.find? fun d => d.id = did ∧ d.deleted_at = none with
  | none => .error 404
  | some d =>
    if d.storage_provider = "r2" ∧ d.storage_key.isSome then .ok d
    else .error 400

/-! # Theorems -/

/-! ## C1 — resource hour-budget invariant

The invariant holds after `create_global_resource`, `assign_resource_to_project`
and `activate_project_resources`, but `update_project_resource` adjusts
`available_hours` without consulting `hours_committed`: raising the allocation
of a *still uncommitted* assignment deducts the difference from the resource
even though no committed hours exist, contradicting the bookkeeping the other
routes (and the model's own comments) implement. -/

/-- C1: executing the faulty scenario.  A resource with 100 total hours gets a
10-hour uncommitted assignment (invariant holds: 100 available, 0 committed);
`update_project_resource` raises the allocation to 20 and succeeds, leaving
`available_hours = 90` while the committed allocation sum is still 0 — the
claimed invariant `available_hours = total_hours - committed` is violated. -/
theorem C1_hour_budget_invariant_violated :
    (assign_resource_to_project (create_global_resource ⟨[], []⟩ "r1" 100)
      "a1" "p1" "r1" 10).2 = none ∧
    hourBudgetInvariant (assign_resource_to_project
      (create_global_resource ⟨[], []⟩ "r1" 100) "a1" "p1" "r1" 10).1 ∧
    (update_project_resource (assign_resource_to_project
      (create_global_resource ⟨[], []⟩ "r1" 100) "a1" "p1" "r1" 10).1
      "p1" "a1" none (some 20)).2 = none ∧
    (update_project_resource (assign_resource_to_project
      (create_global_resource ⟨[], []⟩ "r1" 100) "a1" "p1" "r1" 10).1
      "p1" "a1" none (some 20)).1.lookupRes "r1" = some ⟨100, 90⟩ ∧
    committedHours (update_project_resource (assign_resource_to_project
      (create_global_resource ⟨[], []⟩ "r1" 100) "a1" "p1" "r1" 10).1
      "p1" "a1" none (some 20)).1 "r1" = 0 ∧
    ¬ hourBudgetInvariant (update_project_resource (assign_resource_to_project
      (create_global_resource ⟨[], []⟩ "r1" 100) "a1" "p1" "r1" 10).1
      "p1" "a1" none (some 20)).1 := by
  refine ⟨rfl, by decide, rfl, rfl, rfl, by decide⟩

/-! ## C9 — invoice aggregation arithmetic -/

/-- C9: for `create_invoice`, every stored line item satisfies
`total = quantity * unit_price`, the invoice subtotal is the sum of the line
totals, the stored tax is the payload tax, and `total = subtotal + tax`.  For
`generate_invoice`, every line item again satisfies the product formula and is
strictly positive (non-positive computed totals are excluded), every time
entry with a known employee and a strictly positive `hours * hourly_rate`
contributes a labor item with `quantity = hours` and `unit_price` the
employee's rate, every strictly positive expense contributes an item of amount
`amount`, the subtotal is the sum of the line totals,
`tax = subtotal * tax_rate` and `total = subtotal + tax`. -/
theorem C9_invoice_aggregation :
    (∀ (tax : ℚ) (items : List LineItemIn),
      let inv := create_invoice tax items
      (∀ r ∈ inv.line_items, r.total = r.quantity * r.unit_price) ∧
      inv.subtotal = (inv.line_items.map fun r => r.total).sum ∧
      inv.tax = tax ∧ inv.total = inv.subtotal + inv.tax) ∧
    (∀ (empOf : String → Option Employee) (entries : List TimeEntry)
        (expenses : List BillingExpense) (tax_rate : ℚ) (it ie : Bool),
      let inv := generate_invoice empOf entries expenses tax_rate it ie
      (∀ r ∈ inv.line_items, r.total = r.quantity * r.unit_price ∧ 0 < r.total) ∧
      inv.subtotal = (inv.line_items.map fun r => r.total).sum ∧
      inv.tax = inv.subtotal * tax_rate ∧ inv.total = inv.subtotal + inv.tax ∧
      (it = true → ∀ e ∈ entries, ∀ emp, empOf e.employee_id = some emp →
        0 < e.hours * emp.hourly_rate →
        (⟨"labor", e.hours, emp.hourly_rate, e.hours * emp.hourly_rate⟩ : LineItem)
          ∈ inv.line_items) ∧
      (ie = true → ∀ ex ∈ expenses, 0 < ex.amount →
        ∃ r ∈ inv.line_items, r.quantity = 1 ∧ r.unit_price = ex.amount ∧
          r.total = ex.amount)) := by
  constructor
  · intro tax items
    refine ⟨?_, rfl, rfl, rfl⟩
    intro r hr
    simp only [create_invoice, List.mem_map] at hr
    obtain ⟨li, _, rfl⟩ := hr
    rfl
  · intro empOf entries expenses tax_rate it ie
    have hmem : ∀ r ∈ (generate_invoice empOf entries expenses tax_rate it ie).line_items,
        r.total = r.quantity * r.unit_price ∧ 0 < r.total := by
      intro r hr
      simp only [generate_invoice, List.mem_append] at hr
      rcases hr with hr | hr
      · rcases it with _ | _
        · simp at hr
        · simp only [if_true, laborItems, List.mem_filterMap] at hr
          obtain ⟨e, _, he⟩ := hr
          rcases hemp : empOf e.employee_id with _ | emp
          · rw [hemp] at he; simp at he
          · rw [hemp] at he
            simp only [Option.some.injEq] at he
            by_cases hpos : e.hours * emp.hourly_rate ≤ 0
            · rw [if_pos hpos] at he; exact absurd he (by simp)
            · rw [if_neg hpos] at he
              cases he
              exact ⟨rfl, lt_of_not_le hpos⟩
      · rcases ie with _ | _
        · simp at hr
        · simp only [if_true, expenseItems, List.mem_filterMap] at hr
          obtain ⟨ex, _, hex⟩ := hr
          by_cases hpos : ex.amount ≤ 0
          · rw [if_pos hpos] at hex; exact absurd hex (by simp)
          · rw [if_neg hpos] at hex
            cases hex
            exact ⟨(one_mul _).symm, lt_of_not_le hpos⟩
    refine ⟨hmem, rfl, rfl, rfl, ?_, ?_⟩
    · rintro rfl e he emp hemp hpos
      simp only [generate_invoice, List.mem_append, if_true]
      left
      simp only [laborItems, List.mem_filterMap]
      exact ⟨e, he, by rw [hemp]; simp [not_le.mpr hpos, le_of_lt hpos]⟩
    · rintro rfl ex hex hpos
      refine ⟨⟨if ex.expense_type ∈ ["vendor", "consultant", "outsourcing"]
        then "vendor" else "subscription", 1, ex.amount, ex.amount⟩, ?_, rfl, rfl, rfl⟩
      simp only [generate_invoice, List.mem_append, if_true]
      right
      simp only [expenseItems, List.mem_filterMap]
      exact ⟨ex, hex, by simp [not_le.mpr hpos]⟩

/-- Witness for C9: the theorem applied to a concrete invoice generation
(one billable entry, one employee, one expense), discharging the hypotheses of
the inclusion conjuncts. -/
theorem C9_invoice_aggregation_witness :
    let empOf : String → Option Employee := fun i => if i = "e1" then some ⟨50⟩ else none
    let entries : List TimeEntry := [⟨"e1", 2⟩]
    let expenses : List BillingExpense := [⟨"vendor", 30⟩]
    let inv := generate_invoice empOf entries expenses (1/10) true true
    (⟨"labor", 2, 50, 100⟩ : LineItem) ∈ inv.line_items ∧
    (∃ r ∈ inv.line_items, r.quantity = 1 ∧ r.unit_price = 30 ∧ r.total = 30) ∧
    inv.tax = inv.subtotal * (1/10) := by
  intro empOf entries expenses inv
  obtain ⟨-, hgen⟩ := C9_invoice_aggregation
  obtain ⟨-, -, htax, -, hlab, hexp⟩ := hgen empOf entries expenses (1/10) true true
  refine ⟨?_, hexp rfl ⟨"vendor", 30⟩ (by simp [expenses]) (by norm_num), htax⟩
  have := hlab rfl ⟨"e1", 2⟩ (by simp [entries]) ⟨50⟩ (by simp [empOf]) (by norm_num)
  have h2 : (2 : ℚ) * 50 = 100 := by norm_num
  simpa [h2] using this

/-! ## C5 — soft-delete semantics for documents -/

/-- C5: (a) a successful `delete_document` keeps every database record (same
row count; rows not matching the target are untouched) and stamps the target
with `deleted_at = now`; (b) `list_customer_documents` returns only rows of
the state with `deleted_at = none`; (c) once every row with the document's id
is soft-deleted, `_get_document_file` (the view/download lookup),
`update_document`, `delete_document` and `get_document_download_url` all
answer 404; (d) any document returned by the read/update paths has
`deleted_at = none`. -/
theorem C5_soft_delete_semantics :
    (∀ (s : DocState) (cid did : String) (now : Nat) (st' : DocState),
      delete_document s cid did now = .ok st' →
      st'.documents.length = s.documents.length ∧
      (∀ d ∈ s.documents,
        ¬ (d.id = did ∧ d.customer_id = cid ∧ d.deleted_at = none) →
        d ∈ st'.documents) ∧
      (∃ d ∈ st'.documents, d.id = did ∧ d.customer_id = cid ∧
        d.deleted_at = some now)) ∧
    (∀ (s : DocState) (cid : String) (pid cat : Option String)
        (l : List DocumentRow),
      list_customer_documents s cid pid cat = .ok l →
      ∀ d ∈ l, d ∈ s.documents ∧ d.deleted_at = none) ∧
    (∀ (s : DocState) (cid did : String) (u : DocumentUpdatePayload) (now : Nat),
      (∀ d ∈ s.documents, d.id = did → d.deleted_at ≠ none) →
      get_document_file s cid did = .error 404 ∧
      update_document s cid did u = .error 404 ∧
      delete_document s cid did now = .error 404 ∧
      get_document_download_url s did = .error 404) ∧
    (∀ (s : DocState) (cid did : String) (u : DocumentUpdatePayload),
      (∀ d, get_document_file s cid did = .ok d → d ∈ s.documents ∧ d.deleted_at = none) ∧
      (∀ st' d, update_document s cid did u = .ok (st', d) → d.deleted_at = none) ∧
      (∀ d, get_document_download_url s did = .ok d → d ∈ s.documents ∧ d.deleted_at = none)) := by
  refine ⟨?_, ?_, ?_, ?_⟩
  · -- delete keeps records and stamps the target
    intro s cid did now st' h
    simp only [delete_document] at h
    by_cases hc : cid ∈ s.customers
    · rw [if_neg (by simpa using hc)] at h
      rcases hfind : s.documents.find? fun d =>
          d.id = did ∧ d.customer_id = cid ∧ d.deleted_at = none with _ | doc
      · rw [hfind] at h; cases h
      · rw [hfind] at h
        cases h
        have hdoc := List.find?_some hfind
        have hmem := List.mem_of_find?_eq_some hfind
        simp only [decide_eq_true_eq] at hdoc
        refine ⟨by simp, ?_, ?_⟩
        · intro d hd hnot
          simp only [List.mem_map]
          exact ⟨d, hd, by rw [if_neg (by simpa using hnot)]⟩
        · refine ⟨{ doc with deleted_at := some now }, ?_, hdoc.1, hdoc.2.1, rfl⟩
          simp only [List.mem_map]
          exact ⟨doc, hmem, by rw [if_pos (by simpa using hdoc)]⟩
    · rw [if_pos (by simpa using hc)] at h; cases h
  · -- list returns only live rows of the state
    intro s cid pid cat l h d hd
    simp only [list_customer_documents] at h
    by_cases hc : cid ∈ s.customers
    · rw [if_neg (by simpa using hc)] at h
      cases h
      have := List.mem_filter.mp hd
      refine ⟨this.1, ?_⟩
      have h2 := this.2
      simp only [decide_eq_true_eq] at h2
      exact h2.2.1
    · rw [if_pos (by simpa using hc)] at h; cases h
  · -- every operation answers 404 once the id is soft-deleted
    intro s cid did u now hdel
    have hfind : (s.documents.find? fun d =>
        d.id = did ∧ d.customer_id = cid ∧ d.deleted_at = none) = none := by
      rw [List.find?_eq_none]
      intro d hd
      simp only [decide_eq_true_eq, not_and]
      intro h1 _ h3
      exact (hdel d hd h1) h3
    have hfind2 : (s.documents.find? fun d =>
        d.id = did ∧ d.deleted_at = none) = none := by
      rw [List.find?_eq_none]
      intro d hd
      simp only [decide_eq_true_eq, not_and]
      intro h1 h3
      exact (hdel d hd h1) h3
    refine ⟨?_, ?_, ?_, ?_⟩
    · simp only [get_document_file]
      by_cases hc : cid ∈ s.customers
      · rw [if_neg (by simpa using hc), hfind]
      · rw [if_pos (by simpa using hc)]
    · simp only [update_document]
      by_cases hc : cid ∈ s.customers
      · rw [if_neg (by simpa using hc), hfind]
      · rw [if_pos (by simpa using hc)]
    · simp only [delete_document]
      by_cases hc : cid ∈ s.customers
      · rw [if_neg (by simpa using hc), hfind]
      · rw [if_pos (by simpa using hc)]
    · simp only [get_document_download_url]
      rw [hfind2]
  · -- successful reads return live documents
    intro s cid did u
    refine ⟨?_, ?_, ?_⟩
    · intro d h
      simp only [get_document_file] at h
      by_cases hc : cid ∈ s.customers
      · rw [if_neg (by simpa using hc)] at h
        rcases hfind : s.documents.find? fun x =>
            x.id = did ∧ x.customer_id = cid ∧ x.deleted_at = none with _ | doc
        · rw [hfind] at h; cases h
        · rw [hfind] at h
          cases h
          have hdoc := List.find?_some hfind
          simp only [decide_eq_true_eq] at hdoc
          exact ⟨List.mem_of_find?_eq_some hfind, hdoc.2.2⟩
      · rw [if_pos (by simpa using hc)] at h; cases h
    · intro st' d h
      simp only [update_document] at h
      by_cases hc : cid ∈ s.customers
      · rw [if_neg (by simpa using hc)] at h
        rcases hfind : s.documents.find? fun x =>
            x.id = did ∧ x.customer_id = cid ∧ x.deleted_at = none with _ | doc
        · rw [hfind] at h; cases h
        · rw [hfind] at h
          cases h
          have hdoc := List.find?_some hfind
          simp only [decide_eq_true_eq] at hdoc
          exact hdoc.2.2
      · rw [if_pos (by simpa using hc)] at h; cases h
    · intro d h
      simp only [get_document_download_url] at h
      rcases hfind : s.documents.find? fun x => x.id = did ∧ x.deleted_at = none
        with _ | doc
      · rw [hfind] at h; cases h
      · rw [hfind] at h
        dsimp only at h
        have hdoc := List.find?_some hfind
        simp only [decide_eq_true_eq] at hdoc
        by_cases hr2 : doc.storage_provider = "r2" ∧ doc.storage_key.isSome = true
        · rw [if_pos hr2] at h
          cases h
          exact ⟨List.mem_of_find?_eq_some hfind, hdoc.2⟩
        · rw [if_neg hr2] at h
          cases h

/-- Witness for C5: the theorem applied to a one-document state — deleting
stamps the record and keeps it, the soft-deleted state then answers 404
everywhere, and listing hides the row. -/
theorem C5_soft_delete_semantics_witness :
    let d0 : DocumentRow :=
      ⟨"d1", "c1", none, "project", "requirements", "f.txt", "r2", some "k", none⟩
    let sLive : DocState := ⟨["c1"], [d0]⟩
    let sDel : DocState := ⟨["c1"], [{ d0 with deleted_at := some 5 }]⟩
    delete_document sLive "c1" "d1" 5 = .ok sDel ∧
    (∃ d ∈ sDel.documents, d.id = "d1" ∧ d.customer_id = "c1" ∧
      d.deleted_at = some 5) ∧
    get_document_file sDel "c1" "d1" = .error 404 ∧
    update_document sDel "c1" "d1" ⟨none, none, none⟩ = .error 404 := by
  intro d0 sLive sDel
  have hdel : delete_document sLive "c1" "d1" 5 = .ok sDel := by rfl
  have h1 := (C5_soft_delete_semantics.1 sLive "c1" "d1" 5 sDel hdel).2.2
  have h404 := C5_soft_delete_semantics.2.2.1 sDel "c1" "d1" ⟨none, none, none⟩ 5
    (by decide)
  exact ⟨hdel, h1, h404.1, h404.2.1⟩

/-! ## C8 — project-number uniqueness -/

/-- Updating the (unique) project with id `pid` to carry number `m` preserves
distinctness of the numbers, provided any project already holding `m` is that
project itself. -/
theorem nodup_numbers_after_update (l : List Project) (pid m : String)
    (upd : Project → Project)
    (hupd : ∀ p, (upd p).project_number = m)
    (hids : (l.map fun p => p.id).Nodup)
    (hnums : (l.map fun p => p.project_number).Nodup)
    (hm : ∀ p ∈ l, p.project_number = m → p.id = pid) :
    ((l.map fun p => if p.id = pid then upd p else p).map
      fun p => p.project_number).Nodup := by
  induction l with
  | nil => simp
  | cons p rest ih =>
    simp only [List.map_cons, List.nodup_cons, List.mem_map] at hids hnums
    have hmrest : ∀ q ∈ rest, q.project_number = m → q.id = pid := fun q hq =>
      hm q (List.mem_cons_of_mem _ hq)
    by_cases hp : p.id = pid
    · have hrest : (rest.map fun q => if q.id = pid then upd q else q) = rest := by
        have h1 : (rest.map fun q => if q.id = pid then upd q else q) =
            rest.map id := by
          apply List.map_congr_left
          intro q hq
          rw [if_neg, id_eq]
          intro hqid
          exact hids.1 ⟨q, hq, by rw [hqid, hp]⟩
        simpa using h1
      simp only [List.map_cons, if_pos hp, hrest, List.nodup_cons, List.mem_map]
      refine ⟨?_, hnums.2⟩
      rintro ⟨q, hq, hqnum⟩
      rw [hupd] at hqnum
      exact hids.1 ⟨q, hq, by rw [hmrest q hq hqnum, hp]⟩
    · simp only [List.map_cons, if_neg hp, List.nodup_cons, List.mem_map]
      refine ⟨?_, ih hids.2 hnums.2 hmrest⟩
      rintro ⟨q', ⟨q, hq, rfl⟩, hq'num⟩
      by_cases hqid : q.id = pid
      · rw [if_pos hqid, hupd] at hq'num
        exact hp (hm p (List.mem_cons_self _ _) hq'num.symm)
      · rw [if_neg hqid] at hq'num
        exact hnums.1 ⟨q, hq, hq'num⟩

/-- An update that keeps every project's number keeps the numbers distinct. -/
theorem nodup_numbers_after_keep (l : List Project) (pid : String)
    (upd : Project → Project)
    (hupd : ∀ p, (upd p).project_number = p.project_number)
    (hnums : (l.map fun p => p.project_number).Nodup) :
    ((l.map fun p => if p.id = pid then upd p else p).map
      fun p => p.project_number).Nodup := by
  rw [List.map_map]
  have heq : ((fun p : Project => p.project_number) ∘
      fun p : Project => if p.id = pid then upd p else p) =
      fun p : Project => p.project_number := by
    funext p
    by_cases h : p.id = pid <;> simp [h, hupd]
  rw [heq]
  exact hnums

/-- C8: `create_project` answers 400 exactly when another project already
holds the requested number (the referenced customer existing); a failing
`create_project` or `update_project` leaves the state unchanged;
`update_project` answers 400 when the payload changes the number to one held
by another project (and the payload's customer reference is valid, which is
checked first); and both operations preserve distinctness of project numbers
(given distinct primary keys). -/
theorem C8_project_number_uniqueness :
    (∀ (s : ProjState) (newId number name cid : String), cid ∈ s.customers →
      ((create_project s newId number name cid).2 = some 400 ↔
        ∃ p ∈ s.projects, p.project_number = number)) ∧
    (∀ (s : ProjState) (newId number name cid : String),
      (create_project s newId number name cid).2 ≠ none →
      (create_project s newId number name cid).1 = s) ∧
    (∀ (s : ProjState) (pid : String) (u : ProjectUpdatePayload) (proj : Project)
        (m : String),
      (s.projects.find? fun p => p.id = pid) = some proj →
      (∀ c, u.customer_id = some c → c = proj.customer_id ∨ c ∈ s.customers) →
      u.project_number = some m → m ≠ proj.project_number →
      (∃ p ∈ s.projects, p.project_number = m) →
      (update_project s pid u).2 = some 400) ∧
    (∀ (s : ProjState) (pid : String) (u : ProjectUpdatePayload),
      (update_project s pid u).2 ≠ none → (update_project s pid u).1 = s) ∧
    (∀ (s : ProjState) (newId number name cid : String),
      uniqueNumbers s → uniqueNumbers (create_project s newId number name cid).1) ∧
    (∀ (s : ProjState) (pid : String) (u : ProjectUpdatePayload),
      (s.projects.map fun p => p.id).Nodup →
      uniqueNumbers s → uniqueNumbers (update_project s pid u).1) := by
  refine ⟨?_, ?_, ?_, ?_, ?_, ?_⟩
  · -- create: 400 iff the number is taken
    intro s newId number name cid hcid
    simp only [create_project, if_neg (not_not_intro hcid)]
    by_cases h : (s.projects.find? fun p => p.project_number = number).isSome
    · rw [if_pos h]
      constructor
      · intro _
        obtain ⟨p, hp⟩ := Option.isSome_iff_exists.mp h
        have h1 := List.find?_some hp
        simp only [decide_eq_true_eq] at h1
        exact ⟨p, List.mem_of_find?_eq_some hp, h1⟩
      · intro _; rfl
    · rw [if_neg h]
      constructor
      · intro hc; exact absurd hc (by simp)
      · intro hex
        obtain ⟨p, hp, hpm⟩ := hex
        exact absurd (List.find?_isSome.mpr ⟨p, hp, by simpa using hpm⟩) h
  · -- create: error leaves the state unchanged
    intro s newId number name cid h
    simp only [create_project] at h ⊢
    by_cases hc : cid ∈ s.customers
    · rw [if_neg (not_not_intro hc)] at h ⊢
      by_cases hf : (s.projects.find? fun p => p.project_number = number).isSome
      · rw [if_pos hf]
      · rw [if_neg hf] at h
        simp at h
    · rw [if_pos hc]
  · -- update: 400 on a number conflict
    intro s pid u proj m hfind hcust hnum hne hex
    simp only [update_project, hfind]
    have hmiss : (match u.customer_id with
        | some c => decide (c ≠ proj.customer_id ∧ ¬ c ∈ s.customers)
        | none => false) = false := by
      rcases hc : u.customer_id with _ | c
      · rfl
      · rcases hcust c hc with h | h <;> simp [h]
    have htaken : (match u.project_number with
        | some m2 => decide (m2 ≠ proj.project_number ∧
            (s.projects.find? fun p => p.project_number = m2).isSome = true)
        | none => false) = true := by
      rw [hnum]
      simp only [decide_eq_true_eq]
      obtain ⟨p, hp, hpm⟩ := hex
      exact ⟨hne, List.find?_isSome.mpr ⟨p, hp, by simpa using hpm⟩⟩
    rw [if_neg (by rw [hmiss]; simp), if_pos htaken]
  · -- update: error leaves the state unchanged
    intro s pid u h
    simp only [update_project] at h ⊢
    rcases hfind : s.projects.find? fun p => p.id = pid with _ | proj
    · rw [hfind]
    · rw [hfind] at h ⊢
      dsimp only at h ⊢
      by_cases h1 : (match u.customer_id with
          | some c => decide (c ≠ proj.customer_id ∧ ¬ c ∈ s.customers)
          | none => false) = true
      · rw [if_pos h1]
      · rw [if_neg h1] at h ⊢
        by_cases h2 : (match u.project_number with
            | some m2 => decide (m2 ≠ proj.project_number ∧
                (s.projects.find? fun p => p.project_number = m2).isSome = true)
            | none => false) = true
        · rw [if_pos h2]
        · rw [if_neg h2] at h
          simp at h
  · -- create preserves distinct numbers
    intro s newId number name cid hu
    simp only [create_project]
    by_cases hc : cid ∈ s.customers
    · rw [if_neg (not_not_intro hc)]
      by_cases hf : (s.projects.find? fun p => p.project_number = number).isSome
      · rwa [if_pos hf]
      · rw [if_neg hf]
        simp only [uniqueNumbers, List.map_append, List.map_cons, List.map_nil]
        rw [Option.not_isSome_iff_eq_none, List.find?_eq_none] at hf
        refine (List.Perm.nodup_iff (List.perm_append_singleton _ _)).mpr ?_
        rw [List.nodup_cons]
        refine ⟨?_, hu⟩
        intro hmem
        obtain ⟨p, hp, hpnum⟩ := List.mem_map.mp hmem
        have hfp := hf p hp
        simp [hpnum] at hfp
    · rwa [if_pos hc]
  · -- update preserves distinct numbers
    intro s pid u hids hu
    simp only [update_project]
    rcases hfind : s.projects.find? fun p => p.id = pid with _ | proj
    · rw [hfind]; exact hu
    · rw [hfind]
      dsimp only
      by_cases h1 : (match u.customer_id with
          | some c => decide (c ≠ proj.customer_id ∧ ¬ c ∈ s.customers)
          | none => false) = true
      · rw [if_pos h1]; exact hu
      · rw [if_neg h1]
        by_cases h2 : (match u.project_number with
            | some m2 => decide (m2 ≠ proj.project_number ∧
                (s.projects.find? fun p => p.project_number = m2).isSome = true)
            | none => false) = true
        · rw [if_pos h2]; exact hu
        · rw [if_neg h2]
          rcases hnum : u.project_number with _ | m
          · -- no number change: every number is unchanged
            simp only [uniqueNumbers]
            exact nodup_numbers_after_keep s.projects pid _ (fun p => by simp) hu
          · -- number set to `m`: `m` is free or already the project's number
            have hproj := List.find?_some hfind
            have hprojmem := List.mem_of_find?_eq_some hfind
            simp only [decide_eq_true_eq] at hproj
            rw [hnum] at h2
            simp only [decide_eq_true_eq, not_and, not_not] at h2
            simp only [uniqueNumbers, hnum]
            apply nodup_numbers_after_update s.projects pid m _ (fun p => rfl) hids hu
            intro p hp hpm
            by_cases hmp : m = proj.project_number
            · have hpe : p = proj := by
                refine List.inj_on_of_nodup_map hu hp hprojmem ?_
                rw [hpm, hmp]
              rw [hpe, hproj]
            · exfalso
              have h3 := h2 hmp
              rw [Option.not_isSome_iff_eq_none] at h3
              · rw [List.find?_eq_none] at h3
                exact absurd (by simpa using hpm : decide (p.project_number = m) = true)
                  (h3 p hp)

/-- Witness for C8: with one project holding number `N1`, creating a second
project with `N1` answers 400, and updating another project's number to `N1`
answers 400. -/
theorem C8_project_number_uniqueness_witness :
    (create_project ⟨["c"], [⟨"p1", "N1", "A", "c"⟩]⟩ "p2" "N1" "B" "c").2 =
      some 400 ∧
    (update_project ⟨["c"], [⟨"p1", "N1", "A", "c"⟩, ⟨"p2", "N2", "B", "c"⟩]⟩
      "p2" ⟨some "N1", none, none⟩).2 = some 400 := by
  constructor
  · exact (C8_project_number_uniqueness.1 ⟨["c"], [⟨"p1", "N1", "A", "c"⟩]⟩
      "p2" "N1" "B" "c" (by decide)).mpr ⟨⟨"p1", "N1", "A", "c"⟩, by decide, rfl⟩
  · exact C8_project_number_uniqueness.2.2.1
      ⟨["c"], [⟨"p1", "N1", "A", "c"⟩, ⟨"p2", "N2", "B", "c"⟩]⟩ "p2"
      ⟨some "N1", none, none⟩ ⟨"p2", "N2", "B", "c"⟩ "N1" (by rfl)
      (fun c h => Option.noConfusion h) rfl (by decide)
      ⟨⟨"p1", "N1", "A", "c"⟩, by decide, rfl⟩

/-! ## Chunking lemmas (for C6 and C10) -/

theorem pyStrip_eq_nil_iff (l : List Char) :
    pyStrip l = [] ↔ ∀ c ∈ l, isPySpace c = true := by
  unfold pyStrip
  rw [List.reverse_eq_nil_iff, List.dropWhile_eq_nil_iff]
  constructor
  · intro h c hc
    rcases (List.mem_append.mp
      ((List.takeWhile_append_dropWhile isPySpace l) ▸ hc)) with h1 | h1
    · exact List.mem_takeWhile_imp h1
    · exact h c (by simpa using h1)
  · intro h c hc
    exact h c (List.dropWhile_suffix _ |>.mem (by simpa using hc))

theorem pyStrip_length_le (l : List Char) : (pyStrip l).length ≤ l.length := by
  unfold pyStrip
  calc ((l.dropWhile isPySpace).reverse.dropWhile isPySpace).reverse.length
      = ((l.dropWhile isPySpace).reverse.dropWhile isPySpace).length := by
        rw [List.length_reverse]
    _ ≤ (l.dropWhile isPySpace).reverse.length := (List.dropWhile_suffix _).length_le
    _ = (l.dropWhile isPySpace).length := by rw [List.length_reverse]
    _ ≤ l.length := (List.dropWhile_suffix _).length_le

/-- `pyStrip l` is a prefix of `l.dropWhile isPySpace`. -/
theorem pyStrip_prefix_dropWhile (l : List Char) :
    pyStrip l <+: l.dropWhile isPySpace := by
  have h1 : (l.dropWhile isPySpace).reverse.dropWhile isPySpace <:+
      (l.dropWhile isPySpace).reverse := List.dropWhile_suffix _
  have h2 := List.reverse_prefix.mpr h1
  rwa [List.reverse_reverse] at h2

theorem pyStrip_head_not_space (l : List Char) (h : pyStrip l ≠ []) :
    isPySpace ((pyStrip l).head h) = false := by
  have hpre := pyStrip_prefix_dropWhile l
  have hd : (l.dropWhile isPySpace) ≠ [] := by
    intro hnil
    exact h (List.prefix_nil.mp (hnil ▸ hpre))
  rw [hpre.head h]
  exact List.head_dropWhile_not isPySpace l _

theorem pyStrip_ne_nil_of_head (l : List Char) (h : l ≠ [])
    (hh : isPySpace (l.head h) = false) : pyStrip l ≠ [] := by
  intro hnil
  have := (pyStrip_eq_nil_iff l).mp hnil (l.head h) (List.head_mem h)
  rw [hh] at this
  cases this

/-- Fuel `n - start + 1` always suffices for the window list when the overlap
is smaller than the chunk size. -/
theorem chunkWindows_isSome (n cs ov : Nat) (hov : ov < cs) :
    ∀ fuel start, n - start < fuel → (chunkWindows n cs ov fuel start).isSome := by
  intro fuel
  induction fuel with
  | zero => intro start h; omega
  | succ k ih =>
    intro start h
    rw [chunkWindows]
    by_cases hs : start < n
    · rw [if_pos hs]
      dsimp only
      by_cases he : n ≤ min n (start + cs)
      · rw [if_pos he]; rfl
      · rw [if_neg he]
        have hmin : min n (start + cs) = start + cs := by omega
        rw [hmin] at he
        have hrec := ih (min n (start + cs) - ov) (by rw [hmin]; omega)
        rcases hw : chunkWindows n cs ov k (min n (start + cs) - ov) with _ | ws
        · rw [hw] at hrec; cases hrec
        · rfl
    · rw [if_neg hs]; rfl

/-- The loop result is the stripped, non-empty window slices appended to the
accumulator. -/
theorem chunkLoop_eq_windows (t : List Char) (cs ov : Nat) :
    ∀ fuel start acc,
      chunkLoop t cs ov fuel start acc =
        (chunkWindows t.length cs ov fuel start).map fun ws =>
          acc ++ (ws.map fun w => pyStrip (pySlice t w.1 w.2)).filter
            fun c => !c.isEmpty := by
  intro fuel
  induction fuel with
  | zero => intro start acc; rfl
  | succ k ih =>
    intro start acc
    rw [chunkLoop, chunkWindows]
    by_cases hs : start < t.length
    · rw [if_pos hs, if_pos hs]
      dsimp only
      by_cases he : t.length ≤ min t.length (start + cs)
      · rw [if_pos he, if_pos he]
        by_cases hck : (pyStrip (pySlice t start (min t.length (start + cs)))).isEmpty
        · simp [hck, List.filter_cons]
        · simp [hck, List.filter_cons]
      · rw [if_neg he, if_neg he, ih, Option.map_map]
        rcases hw : chunkWindows t.length cs ov k (min t.length (start + cs) - ov)
          with _ | ws
        · rfl
        · by_cases hck : (pyStrip (pySlice t start (min t.length (start + cs)))).isEmpty
          · simp [hck, List.filter_cons]
          · simp [hck, List.filter_cons]
    · rw [if_neg hs, if_neg hs]
      simp


/-- A window list computed from a position inside the text starts with the
window `(start, min n (start + cs))`. -/
theorem chunkWindows_head (n cs ov : Nat) :
    ∀ fuel start ws, chunkWindows n cs ov fuel start = some ws → start < n →
      ∃ rest, ws = (start, min n (start + cs)) :: rest := by
  intro fuel start ws hw hs
  cases fuel with
  | zero => cases hw
  | succ k =>
    rw [chunkWindows, if_pos hs] at hw
    dsimp only at hw
    by_cases he : n ≤ min n (start + cs)
    · rw [if_pos he] at hw
      cases hw
      exact ⟨[], rfl⟩
    · rw [if_neg he] at hw
      rcases hr : chunkWindows n cs ov k (min n (start + cs) - ov) with _ | ws2
      · rw [hr] at hw; cases hw
      · rw [hr] at hw
        cases hw
        exact ⟨ws2, rfl⟩

/-- Every produced window `(s, e)` satisfies `e = min n (s + cs)` and starts
inside the text. -/
theorem chunkWindows_mem (n cs ov : Nat) :
    ∀ fuel start ws, chunkWindows n cs ov fuel start = some ws →
      ∀ w ∈ ws, w.2 = min n (w.1 + cs) ∧ w.1 < n := by
  intro fuel
  induction fuel with
  | zero => intro start ws hw; cases hw
  | succ k ih =>
    intro start ws hw w hwmem
    rw [chunkWindows] at hw
    by_cases hs : start < n
    · rw [if_pos hs] at hw
      dsimp only at hw
      by_cases he : n ≤ min n (start + cs)
      · rw [if_pos he] at hw
        cases hw
        rw [List.mem_cons] at hwmem
        rcases hwmem with rfl | h
        · exact ⟨rfl, hs⟩
        · simp at h
      · rw [if_neg he] at hw
        rcases hr : chunkWindows n cs ov k (min n (start + cs) - ov) with _ | ws2
        · rw [hr] at hw; cases hw
        · rw [hr] at hw
          cases hw
          rw [List.mem_cons] at hwmem
          rcases hwmem with rfl | h
          · exact ⟨rfl, hs⟩
          · exact ih _ _ hr w h
    · rw [if_neg hs] at hw
      cases hw
      simp at hwmem

/-- Consecutive windows: the next one begins exactly `ov` characters before
the end of the previous one (and inside it, when `0 < ov < cs`). -/
theorem chunkWindows_chain (n cs ov : Nat) (hov0 : 0 < ov) (hov : ov < cs) :
    ∀ fuel start ws, chunkWindows n cs ov fuel start = some ws →
      List.Chain' (fun a b => b.1 = a.2 - ov ∧ b.1 < a.2) ws := by
  intro fuel
  induction fuel with
  | zero => intro start ws hw; cases hw
  | succ k ih =>
    intro start ws hw
    rw [chunkWindows] at hw
    by_cases hs : start < n
    · rw [if_pos hs] at hw
      dsimp only at hw
      by_cases he : n ≤ min n (start + cs)
      · rw [if_pos he] at hw
        cases hw
        simp
      · rw [if_neg he] at hw
        rcases hr : chunkWindows n cs ov k (min n (start + cs) - ov) with _ | ws2
        · rw [hr] at hw; cases hw
        · rw [hr] at hw
          cases hw
          have htail := ih _ _ hr
          have hmin : min n (start + cs) = start + cs := by omega
          rcases ws2 with _ | ⟨w2, ws3⟩
          · simp
          · have hs2 : min n (start + cs) - ov < n := by omega
            obtain ⟨rest, heq⟩ := chunkWindows_head n cs ov k
              (min n (start + cs) - ov) (w2 :: ws3) hr (by omega)
            cases heq
            exact List.Chain'.cons ⟨rfl, by omega⟩ htail
    · rw [if_neg hs] at hw
      cases hw
      simp

/-- The windows jointly cover every index from `start` to the end of the
text. -/
theorem chunkWindows_coverage (n cs ov : Nat) :
    ∀ fuel start ws, chunkWindows n cs ov fuel start = some ws →
      ∀ j, start ≤ j → j < n → ∃ w ∈ ws, w.1 ≤ j ∧ j < w.2 := by
  intro fuel
  induction fuel with
  | zero => intro start ws hw; cases hw
  | succ k ih =>
    intro start ws hw j hj1 hj2
    rw [chunkWindows] at hw
    by_cases hs : start < n
    · rw [if_pos hs] at hw
      dsimp only at hw
      by_cases he : n ≤ min n (start + cs)
      · rw [if_pos he] at hw
        cases hw
        exact ⟨(start, min n (start + cs)), by simp, hj1, by omega⟩
      · rw [if_neg he] at hw
        rcases hr : chunkWindows n cs ov k (min n (start + cs) - ov) with _ | ws2
        · rw [hr] at hw; cases hw
        · rw [hr] at hw
          cases hw
          by_cases hjw : j < min n (start + cs)
          · exact ⟨(start, min n (start + cs)), by simp, hj1, hjw⟩
          · obtain ⟨w, hwmem, hw1, hw2⟩ := ih _ _ hr j (by omega) hj2
            exact ⟨w, List.mem_cons_of_mem _ hwmem, hw1, hw2⟩
    · rw [if_neg hs] at hw
      omega

/-! ## C10 — chunking termination -/

/-- C10: (i) whenever `0 < chunk_size` and `overlap < chunk_size`, the loop of
`chunk_text` exits within `len + 1` iterations, so `chunk_text` returns a
result for every text; (ii) an iteration that does not exit re-enters the loop
with `start` advanced by exactly `chunk_size - overlap > 0`, which is the
well-foundedness measure; (iii) without the precondition — `chunk_size ≤
overlap` and a stripped text longer than `chunk_size` — the loop re-enters at
`start = 0` forever: no amount of fuel makes it return. -/
theorem C10_chunk_text_termination :
    (∀ (text : List Char) (cs ov : Nat), 0 < cs → ov < cs →
      ∃ l, chunk_text text cs ov = some l) ∧
    (∀ (t : List Char) (cs ov fuel start : Nat) (acc : List (List Char)),
      ov < cs → start + cs < t.length →
      chunkLoop t cs ov (fuel + 1) start acc =
        chunkLoop t cs ov fuel (start + (cs - ov))
          (if (pyStrip (pySlice t start (start + cs))).isEmpty then acc
           else acc ++ [pyStrip (pySlice t start (start + cs))])) ∧
    (∀ (text : List Char) (cs ov : Nat), 0 < cs → cs ≤ ov →
      cs < (pyStrip text).length →
      ∀ fuel (acc : List (List Char)),
        chunkLoop (pyStrip text) cs ov fuel 0 acc = none) := by
  refine ⟨?_, ?_, ?_⟩
  · -- termination with fuel `len + 1`
    intro text cs ov hcs hov
    unfold chunk_text
    by_cases hemp : (pyStrip text).isEmpty
    · rw [if_pos hemp]; exact ⟨[], rfl⟩
    · rw [if_neg hemp]
      rw [chunkLoop_eq_windows]
      obtain ⟨ws, hws⟩ := Option.isSome_iff_exists.mp
        (chunkWindows_isSome (pyStrip text).length cs ov hov
          ((pyStrip text).length + 1) 0 (by omega))
      rw [hws]
      exact ⟨_, rfl⟩
  · -- progress: `start` advances by `cs - ov` on every non-exiting iteration
    intro t cs ov fuel start acc hov hlt
    rw [chunkLoop]
    have hs : start < t.length := by omega
    rw [if_pos hs]
    dsimp only
    have hmin : min t.length (start + cs) = start + cs := by omega
    rw [hmin, if_neg (by omega)]
    congr 1
    omega
  · -- no progress when `cs ≤ ov`: the loop sticks at `start = 0`
    intro text cs ov hcs hle hlen fuel
    induction fuel with
    | zero => intro acc; rfl
    | succ k ih =>
      intro acc
      rw [chunkLoop]
      have hs : 0 < (pyStrip text).length := by omega
      rw [if_pos hs]
      dsimp only
      have hmin : min (pyStrip text).length (0 + cs) = cs := by omega
      rw [hmin, if_neg (by omega)]
      have hz : cs - ov = 0 := by omega
      rw [hz]
      exact ih _

/-- Witness for C10: the loop returns for `"abcd"` with chunk size 3 and
overlap 1; the progress equation at a concrete state; and the stuck loop on
`"abcd"` with chunk size 2 and overlap 2 returns `none` at fuel 50. -/
theorem C10_chunk_text_termination_witness :
    (∃ l, chunk_text "abcd".data 3 1 = some l) ∧
    chunkLoop "abcd".data 3 1 (4 + 1) 0 [] =
      chunkLoop "abcd".data 3 1 4 (0 + (3 - 1))
        (if (pyStrip (pySlice "abcd".data 0 (0 + 3))).isEmpty then []
         else [] ++ [pyStrip (pySlice "abcd".data 0 (0 + 3))]) ∧
    chunkLoop (pyStrip "abcd".data) 2 2 50 0 [] = none := by
  refine ⟨C10_chunk_text_termination.1 "abcd".data 3 1 (by decide) (by decide),
    C10_chunk_text_termination.2.1 "abcd".data 3 1 4 0 [] (by decide) (by decide),
    C10_chunk_text_termination.2.2 "abcd".data 2 2 (by decide) (by decide)
      (by decide) 50 []⟩

/-! ## C6 — overlapping chunking with the default parameters -/

/-- C6: for whitespace-only text, `chunk_text text 900 150` returns `[]`; for
text with non-empty stripped form it returns `some l` where `l` collects the
stripped, non-empty window slices of the window list `ws`, and: `l` is
non-empty, every chunk has length at most 900, each successive window begins
exactly 150 characters before the end of the previous one (hence inside it,
sharing characters), every window `(s, e)` satisfies `e = min n (s + 900)`,
and the windows jointly cover every index of the stripped text. -/
theorem C6_chunk_text_overlapping_windows :
    (∀ text : List Char, pyStrip text = [] → chunk_text text 900 150 = some []) ∧
    (∀ text : List Char, pyStrip text ≠ [] →
      ∃ (l : List (List Char)) (ws : List (Nat × Nat)),
        chunk_text text 900 150 = some l ∧
        chunkWindows (pyStrip text).length 900 150 ((pyStrip text).length + 1) 0 =
          some ws ∧
        l = (ws.map fun w => pyStrip (pySlice (pyStrip text) w.1 w.2)).filter
              (fun c => !c.isEmpty) ∧
        l ≠ [] ∧
        (∀ c ∈ l, c.length ≤ 900) ∧
        List.Chain' (fun a b => b.1 = a.2 - 150 ∧ b.1 < a.2) ws ∧
        (∀ w ∈ ws, w.2 = min (pyStrip text).length (w.1 + 900)) ∧
        (∀ j < (pyStrip text).length, ∃ w ∈ ws, w.1 ≤ j ∧ j < w.2)) := by
  constructor
  · intro text h
    unfold chunk_text
    rw [if_pos (by simp [h])]
  · intro text ht
    have hn : 0 < (pyStrip text).length := List.length_pos.mpr ht
    obtain ⟨ws, hws⟩ := Option.isSome_iff_exists.mp
      (chunkWindows_isSome (pyStrip text).length 900 150 (by norm_num)
        ((pyStrip text).length + 1) 0 (by omega))
    have hloop : chunk_text text 900 150 =
        some ((ws.map fun w => pyStrip (pySlice (pyStrip text) w.1 w.2)).filter
          (fun c => !c.isEmpty)) := by
      unfold chunk_text
      rw [if_neg (by simp [ht]), chunkLoop_eq_windows, hws]
      simp
    refine ⟨_, ws, hloop, hws, rfl, ?_, ?_,
      chunkWindows_chain _ 900 150 (by norm_num) (by norm_num) _ _ _ hws,
      fun w hw => (chunkWindows_mem _ 900 150 _ _ _ hws w hw).1,
      fun j hj => chunkWindows_coverage _ 900 150 _ _ _ hws j (Nat.zero_le j) hj⟩
    · -- the chunk list is non-empty: the first window yields a chunk
      obtain ⟨rest, hhead⟩ := chunkWindows_head _ 900 150 _ _ _ hws hn
      subst hhead
      have he1 : 1 ≤ min (pyStrip text).length (0 + 900) := by omega
      have htake : pySlice (pyStrip text) 0 (min (pyStrip text).length (0 + 900)) =
          (pyStrip text).take (min (pyStrip text).length (0 + 900)) := by
        unfold pySlice
        rw [List.drop_zero, Nat.sub_zero]
      have htkne : (pyStrip text).take (min (pyStrip text).length (0 + 900)) ≠ [] := by
        rw [ne_eq, List.take_eq_nil_iff]
        push_neg
        exact ⟨by omega, ht⟩
      have hchunk : pyStrip (pySlice (pyStrip text) 0
          (min (pyStrip text).length (0 + 900))) ≠ [] := by
        rw [htake]
        refine pyStrip_ne_nil_of_head _ htkne ?_
        rw [List.head_take]
        exact pyStrip_head_not_space text ht
      simp only [List.map_cons, List.filter_cons]
      rw [if_pos (by simpa using hchunk)]
      simp
    · -- every chunk is a stripped window slice, hence at most 900 long
      intro c hc
      obtain ⟨hc1, -⟩ := List.mem_filter.mp hc
      obtain ⟨w, hw, rfl⟩ := List.mem_map.mp hc1
      have hwe := (chunkWindows_mem _ 900 150 _ _ _ hws w hw).1
      calc (pyStrip (pySlice (pyStrip text) w.1 w.2)).length
          ≤ (pySlice (pyStrip text) w.1 w.2).length := pyStrip_length_le _
        _ ≤ w.2 - w.1 := by
            unfold pySlice
            rw [List.length_take]
            omega
        _ ≤ 900 := by omega

/-- Witness for C6: both parts applied to concrete texts. -/
theorem C6_chunk_text_overlapping_windows_witness :
    chunk_text "  \t ".data 900 150 = some [] ∧
    ∃ (l : List (List Char)) (ws : List (Nat × Nat)),
      chunk_text "hello".data 900 150 = some l ∧
      chunkWindows (pyStrip "hello".data).length 900 150
        ((pyStrip "hello".data).length + 1) 0 = some ws ∧
      l = (ws.map fun w => pyStrip (pySlice (pyStrip "hello".data) w.1 w.2)).filter
            (fun c => !c.isEmpty) ∧
      l ≠ [] ∧
      (∀ c ∈ l, c.length ≤ 900) ∧
      List.Chain' (fun a b => b.1 = a.2 - 150 ∧ b.1 < a.2) ws ∧
      (∀ w ∈ ws, w.2 = min (pyStrip "hello".data).length (w.1 + 900)) ∧
      (∀ j < (pyStrip "hello".data).length, ∃ w ∈ ws, w.1 ≤ j ∧ j < w.2) := by
  exact ⟨C6_chunk_text_overlapping_windows.1 "  \t ".data (by decide),
    C6_chunk_text_overlapping_windows.2 "hello".data (by decide)⟩

/-! ## C3 — hybrid search blending -/

theorem keyword_score_nonneg (t : List Char) (kws : List (List Char)) :
    0 ≤ keyword_score t kws := by
  unfold keyword_score
  split
  · exact le_refl 0
  · refine le_min (by norm_num) ?_
    positivity

theorem keyword_score_le_one (t : List Char) (kws : List (List Char)) :
    keyword_score t kws ≤ 1 := by
  unfold keyword_score
  split
  · norm_num
  · exact min_le_left _ _

theorem keyword_score_nil (t : List Char) (kws : List (List Char))
    (h : kws = []) : keyword_score t kws = 0 := by
  subst h
  rfl

/-- C3, counterexample: the claim quantifies over every pair of weights, but
for `semantic_weight = keyword_weight = 0` the sum is 0 and the rescaling
divides by zero (`ZeroDivisionError` in Python); `hybrid_search` raises
instead of returning rescaled-weight results. -/
theorem C3_hybrid_search_zero_weights_crash :
    hybrid_search [] "query".data 5 0 0 0 = Except.error () := by
  unfold hybrid_search
  rw [if_pos ⟨by norm_num, by norm_num⟩]

/-- C3 amended: whenever `semantic_weight + keyword_weight ≠ 0`,
`hybrid_search` succeeds with the weights rescaled to sum to 1, and every
returned result carries `similarity_score = semantic_score * semantic_weight +
keyword_score * keyword_weight` (rescaled weights) with `keyword_score =
min(1, matches/total)` in `[0, 1]` (0 with no keywords); every result reaches
`min_score`, the list is sorted by descending `similarity_score`, and its
length is at most `top_k`. -/
theorem C3_hybrid_search_blending (semMatches : List SemMatch)
    (query : List Char) (top_k : Nat) (min_score sw kw : ℚ)
    (htot : sw + kw ≠ 0) :
    ∃ out, hybrid_search semMatches query top_k min_score sw kw = .ok out ∧
      ((if sw + kw = 1 then sw else sw / (sw + kw)) +
        (if sw + kw = 1 then kw else kw / (sw + kw)) = 1) ∧
      out.length ≤ top_k ∧
      List.Pairwise (fun a b : HSResult => b.similarity_score ≤ a.similarity_score)
        out ∧
      (∀ r ∈ out,
        r.similarity_score =
          r.semantic_score * (if sw + kw = 1 then sw else sw / (sw + kw)) +
          r.keyword_score * (if sw + kw = 1 then kw else kw / (sw + kw)) ∧
        min_score ≤ r.similarity_score ∧
        r.keyword_score = keyword_score r.text (extract_keywords query) ∧
        0 ≤ r.keyword_score ∧ r.keyword_score ≤ 1 ∧
        (extract_keywords query = [] → r.keyword_score = 0)) := by
  unfold hybrid_search
  rw [if_neg (fun hc => htot hc.2)]
  refine ⟨_, rfl, ?_, ?_, ?_, ?_⟩
  · -- the (re)scaled weights sum to 1
    by_cases h1 : sw + kw = 1
    · rw [if_pos h1, if_pos h1, h1]
    · rw [if_neg h1, if_neg h1, div_add_div_same, div_self htot]
  · exact List.length_take_le _ _
  · -- sorted descending, preserved by `take`
    refine List.Pairwise.sublist (List.take_sublist _ _) ?_
    have hs := @List.sorted_mergeSort HSResult
      (fun a b : HSResult => decide (b.similarity_score ≤ a.similarity_score))
      (fun a b c hab hbc => by
        simp only [decide_eq_true_eq] at *
        exact le_trans hbc hab)
      (fun a b => by
        simp only [Bool.or_eq_true, decide_eq_true_eq]
        exact le_total b.similarity_score a.similarity_score)
      (semMatches.filterMap fun m =>
        m.md.bind fun t =>
          if t.isEmpty then none
          else
            let ks := keyword_score t (extract_keywords query)
            let comb := m.score * (if sw + kw = 1 then sw else sw / (sw + kw)) +
              ks * (if sw + kw = 1 then kw else kw / (sw + kw))
            if min_score ≤ comb then some ⟨t, comb, m.score, ks⟩ else none)
    exact hs.imp fun h => by simpa using h
  · -- per-result facts, pulled back through `take`, the sort and the filter
    intro r hr
    have hr2 : r ∈ (semMatches.filterMap fun m =>
        m.md.bind fun t =>
          if t.isEmpty then none
          else
            let ks := keyword_score t (extract_keywords query)
            let comb := m.score * (if sw + kw = 1 then sw else sw / (sw + kw)) +
              ks * (if sw + kw = 1 then kw else kw / (sw + kw))
            if min_score ≤ comb then some ⟨t, comb, m.score, ks⟩ else none) := by
      have hr1 := List.mem_of_mem_take hr
      exact (List.mergeSort_perm _ _).mem_iff.mp hr1
    obtain ⟨m, -, hm⟩ := List.mem_filterMap.mp hr2
    rcases hmd : m.md with _ | t
    · rw [hmd] at hm; cases hm
    · rw [hmd] at hm
      simp only [Option.some_bind] at hm
      by_cases hemp : t.isEmpty
      · rw [if_pos hemp] at hm; cases hm
      · rw [if_neg hemp] at hm
        by_cases hms : min_score ≤ m.score * (if sw + kw = 1 then sw else sw / (sw + kw)) +
            keyword_score t (extract_keywords query) *
              (if sw + kw = 1 then kw else kw / (sw + kw))
        · rw [if_pos hms] at hm
          cases hm
          exact ⟨rfl, hms, rfl, keyword_score_nonneg _ _, keyword_score_le_one _ _,
            keyword_score_nil _ _⟩
        · rw [if_neg hms] at hm; cases hm

/-- Witness for C3: the amended theorem applied to one concrete match with the
default weights. -/
theorem C3_hybrid_search_blending_witness :
    ∃ out, hybrid_search [⟨1/2, some "alpha beta".data⟩] "alpha report".data 10
      (1/5) (7/10) (3/10) = .ok out ∧ out.length ≤ 10 := by
  obtain ⟨out, hok, -, hlen, -⟩ := C3_hybrid_search_blending
    [⟨1/2, some "alpha beta".data⟩] "alpha report".data 10 (1/5) (7/10) (3/10)
    (by norm_num)
  exact ⟨out, hok, hlen⟩

/-! ## C4 — chunk rows and vector ids built during ingestion -/

/-- The improved chunker (as ingestion calls it: chunk size 900, overlap 150)
always returns a result — in particular the fallback to the simple loop
terminates, so the `getD` in `ingestChunks` is never the default. -/
theorem chunk_text_improved_isSome (text : List Char) :
    (chunk_text_improved text 900 150).isSome := by
  unfold chunk_text_improved
  by_cases hemp : (pyStrip text).isEmpty
  · rw [if_pos hemp]; rfl
  · rw [if_neg hemp]
    dsimp only
    split
    · rw [chunkLoop_eq_windows]
      obtain ⟨ws, hws⟩ := Option.isSome_iff_exists.mp
        (chunkWindows_isSome (pyStrip text).length 900 150 (by norm_num)
          ((pyStrip text).length + 1) 0 (by omega))
      rw [hws]
      rfl
    · rfl

/-- C4, counterexample: for the extracted text `"a\n\n\nb"` ingestion stores a
single chunk `"a\n\nb"` (the two stripped paragraphs re-joined with a blank
line), which is *not* a contiguous substring of the extracted text — the
improved chunker re-joins stripped fragments, so the claimed substring
property fails. -/
theorem C4_chunk_not_substring_counterexample :
    (ingestChunkRows "d" "a\n\n\nb".data).map (fun r => r.chunk_text) =
      ["a\n\nb".data] ∧
    (ingestChunkRows "d" "a\n\n\nb".data).map (fun r => r.pinecone_vector_id) =
      ["d_0"] ∧
    isSubstrOf "a\n\nb".data "a\n\n\nb".data = false := by
  refine ⟨by decide, by decide, by decide⟩

/-- C4 amended: every chunk produced during ingestion is an element of
`chunk_text_improved(text, 900, 150)` — a re-join of stripped
paragraph/sentence fragments of the text selected for indexing, not
necessarily a contiguous substring of it — and is stored as a `Chunk` row
whose `chunk_index` is its position `i` and whose `pinecone_vector_id` is
`"<document_id>_<i>"`, matching the id and text of the vector upserted for
it. -/
theorem C4_ingest_chunk_rows (docId : String) (text : List Char) :
    (ingestChunkRows docId text).map (fun r => r.chunk_text) = ingestChunks text ∧
    (ingestChunkRows docId text).map (fun r => r.chunk_index) =
      List.range (ingestChunks text).length ∧
    (ingestChunkRows docId text).map (fun r => r.pinecone_vector_id) =
      (List.range (ingestChunks text).length).map
        (fun i => docId ++ "_" ++ toString i) ∧
    (ingestChunkRows docId text).map (fun r => r.document_id) =
      List.replicate (ingestChunks text).length docId ∧
    (ingestVectors docId text).map (fun v => v.id) =
      (ingestChunkRows docId text).map (fun r => r.pinecone_vector_id) ∧
    (ingestVectors docId text).map (fun v => v.text) =
      (ingestChunkRows docId text).map (fun r => r.chunk_text) := by
  unfold ingestChunkRows ingestVectors
  refine ⟨?_, ?_, ?_, ?_, ?_, ?_⟩
  · rw [List.map_map]
    exact List.enum_map_snd _
  · rw [List.map_map]
    exact List.enum_map_fst _
  · rw [List.map_map]
    have h1 : ((fun r : ChunkRow => r.pinecone_vector_id) ∘ fun p : Nat × List Char =>
        (⟨docId, p.1, p.2, docId ++ "_" ++ toString p.1⟩ : ChunkRow)) =
        (fun i : Nat => docId ++ "_" ++ toString i) ∘ Prod.fst := by
      funext p
      rfl
    rw [h1, ← List.map_map, List.enum_map_fst]
  · rw [List.map_map]
    have h1 : ((fun r : ChunkRow => r.document_id) ∘ fun p : Nat × List Char =>
        (⟨docId, p.1, p.2, docId ++ "_" ++ toString p.1⟩ : ChunkRow)) =
        fun _ => docId := by
      funext p
      rfl
    rw [h1]
    simp [List.map_const', List.enum_length]
  · rw [List.map_map, List.map_map]
    rfl
  · rw [List.map_map, List.map_map]
    rfl

/-! ## C2 and C7 — the chatbot chunk pipeline -/

/-- The customer-scoped filtering step only selects among the chunks it is
given; it never introduces new ones. -/
theorem applyCustomerFilter_subset (target : Option String) (isQ isP : Bool)
    (top_k : Nat) (chunks : List ChunkMeta) :
    ∀ ch ∈ applyCustomerFilter target isQ isP top_k chunks, ch ∈ chunks := by
  intro ch h
  unfold applyCustomerFilter at h
  rcases target with _ | cid
  · exact h
  · dsimp only at h
    by_cases hemp : chunks.isEmpty
    · rw [if_pos hemp] at h; exact h
    · rw [if_neg hemp] at h
      by_cases htgt : (chunks.filter fun c => c.customer_id = some cid).isEmpty
      · rw [if_pos htgt] at h
        exact (List.mem_filter.mp (List.mem_of_mem_take h)).1
      · rw [if_neg htgt] at h
        have h2 := List.mem_of_mem_take h
        split at h2
        · rcases List.mem_append.mp h2 with h3 | h3
          · rcases List.mem_append.mp h3 with h4 | h4
            · exact (List.mem_filter.mp (List.mem_filter.mp h4).1).1
            · exact (List.mem_filter.mp (List.mem_filter.mp h4).1).1
          · exact (List.mem_filter.mp (List.mem_of_mem_take h3)).1
        · split at h2
          · rcases List.mem_append.mp h2 with h3 | h3
            · rcases List.mem_append.mp h3 with h4 | h4
              · exact (List.mem_filter.mp (List.mem_filter.mp h4).1).1
              · exact (List.mem_filter.mp (List.mem_filter.mp h4).1).1
            · exact (List.mem_filter.mp (List.mem_of_mem_take h3)).1
          · rcases List.mem_append.mp h2 with h3 | h3
            · exact (List.mem_filter.mp h3).1
            · exact (List.mem_filter.mp (List.mem_of_mem_take h3)).1

/-- C2, counterexample: the query carries the phrase `before January 10`, the
only retrieved chunk was uploaded on 2026-03-01 — *not* before the cutoff —
yet `chatbot_query` passes it to answer generation unchanged, because the
temporal filter keeps the original list whenever the filtered list would be
empty (`if filtered_chunks: chunks = filtered_chunks`). -/
theorem C2_temporal_filter_counterexample :
    detectBeforeCutoff 2026 "before January 10".data =
      some ⟨2026, 1, 10, 0, 0, 0, 0⟩ ∧
    chatbotChunksForGeneration 2026 "before January 10".data [] false false 20
      [⟨none, none, some "2026-03-01T00:00:00".data, "x".data⟩] =
      some [⟨none, none, some "2026-03-01T00:00:00".data, "x".data⟩] ∧
    chunkBefore ⟨2026, 1, 10, 0, 0, 0, 0⟩
      ⟨none, none, some "2026-03-01T00:00:00".data, "x".data⟩ = false := by
  refine ⟨by decide, by decide, by decide⟩

/-- C2 amended: when the query contains a recognized `before <Month> <Day>`
phrase (so a cutoff is built) and *at least one* retrieved chunk parses to a
timestamp strictly before the cutoff, every chunk `chatbot_query` passes to
answer generation is strictly before the cutoff; chunks not strictly earlier
(including unparsable ones) are removed.  (When no retrieved chunk survives,
the code keeps the list unfiltered — the counterexample.) -/
theorem C2_temporal_filtering (year : Nat) (query : List Char)
    (customers : List CustomerRow) (isQ isP : Bool) (top_k : Nat)
    (retrieved : List ChunkMeta) (cutoff : PyDateTime) (out : List ChunkMeta)
    (hdet : detectBeforeCutoff year query = some cutoff)
    (hex : ∃ ch ∈ retrieved, chunkBefore cutoff ch = true)
    (hout : chatbotChunksForGeneration year query customers isQ isP top_k
      retrieved = some out) :
    ∀ ch ∈ out, chunkBefore cutoff ch = true := by
  intro ch hch
  unfold chatbotChunksForGeneration at hout
  by_cases hg : isGreetingQuery query
  · rw [if_pos hg] at hout; cases hout
  · rw [if_neg hg] at hout
    obtain ⟨c0, hc0, hc0b⟩ := hex
    have hne : retrieved.isEmpty = false :=
      List.isEmpty_eq_false.mpr (List.ne_nil_of_mem hc0)
    have hfil : retrieved.filter (chunkBefore cutoff) ≠ [] :=
      List.ne_nil_of_mem (List.mem_filter.mpr ⟨hc0, hc0b⟩)
    have htemp : applyTemporalFilter (detectBeforeCutoff year query) retrieved =
        retrieved.filter (chunkBefore cutoff) := by
      rw [hdet]
      unfold applyTemporalFilter
      rw [hne]
      simp only [Bool.false_eq_true, if_false]
      rw [if_neg (by simpa using hfil)]
    dsimp only at hout
    rw [htemp] at hout
    cases hout
    exact (List.mem_filter.mp
      (applyCustomerFilter_subset _ _ _ _ _ ch hch)).2

/-- Witness for C2: the amended theorem applied to a concrete query and one
chunk uploaded before the cutoff. -/
theorem C2_temporal_filtering_witness :
    chunkBefore ⟨2026, 1, 10, 0, 0, 0, 0⟩
      ⟨none, none, some "2026-01-05T00:00:00".data, "y".data⟩ = true := by
  exact C2_temporal_filtering 2026 "before January 10".data [] false false 20
    [⟨none, none, some "2026-01-05T00:00:00".data, "y".data⟩]
    ⟨2026, 1, 10, 0, 0, 0, 0⟩
    [⟨none, none, some "2026-01-05T00:00:00".data, "y".data⟩]
    (by decide)
    ⟨⟨none, none, some "2026-01-05T00:00:00".data, "y".data⟩, by decide, by decide⟩
    (by decide)
    ⟨none, none, some "2026-01-05T00:00:00".data, "y".data⟩ (by decide)

/-- Splitting a truncated concatenation: `(T ++ O).take k` is a prefix of `T`
followed by a prefix of `O`. -/
theorem take_append_split {α : Type _} (T O : List α) (k : Nat) :
    ∃ t o, (T ++ O).take k = t ++ o ∧ (∀ c ∈ t, c ∈ T) ∧ (∀ c ∈ o, c ∈ O) ∧
      o.length ≤ O.length := by
  refine ⟨T.take k, O.take (k - T.length), List.take_append_eq_append_take,
    fun c hc => List.mem_of_mem_take hc, fun c hc => List.mem_of_mem_take hc, ?_⟩
  rw [List.length_take]
  omega

theorem length_filter_partition {α : Type _} (p : α → Bool) (l : List α) :
    (l.filter p).length + (l.filter fun a => !(p a)).length = l.length := by
  induction l with
  | nil => rfl
  | cons a rest ih =>
    by_cases h : p a <;> simp [List.filter_cons, h] <;> omega

/-- Splitting a list into the elements satisfying `p` followed by the rest
keeps the length and the members. -/
theorem filter_partition_facts {α : Type _} (p : α → Bool) (l : List α) :
    ((l.filter p) ++ (l.filter fun a => !(p a))).length = l.length ∧
    (∀ c ∈ l, c ∈ (l.filter p) ++ (l.filter fun a => !(p a))) ∧
    (∀ c ∈ (l.filter p) ++ (l.filter fun a => !(p a)), c ∈ l) := by
  refine ⟨by rw [List.length_append]; exact length_filter_partition p l, ?_, ?_⟩
  · intro c hc
    by_cases h : p c
    · exact List.mem_append.mpr (.inl (List.mem_filter.mpr ⟨hc, h⟩))
    · exact List.mem_append.mpr (.inr (List.mem_filter.mpr ⟨hc, by simpa using h⟩))
  · intro c hc
    rcases List.mem_append.mp hc with h | h <;> exact (List.mem_filter.mp h).1

/-- The shape of `(T ++ O0.take (min 2 |O0|)).take top_k` when `T` enumerates
the target customer's chunks. -/
theorem customerOrderedFacts (T T0 O0 : List ChunkMeta) (cid : String)
    (top_k : Nat)
    (hTsub : ∀ c ∈ T, c ∈ T0) (hTsup : ∀ c ∈ T0, c ∈ T)
    (hTlen : T.length = T0.length)
    (htgt : ∀ c ∈ T0, c.customer_id = some cid)
    (hoth : ∀ c ∈ O0, c.customer_id ≠ some cid) :
    ((T ++ O0.take (min 2 O0.length)).take top_k).length ≤ top_k ∧
    (∃ t o, (T ++ O0.take (min 2 O0.length)).take top_k = t ++ o ∧
      (∀ c ∈ t, c.customer_id = some cid) ∧
      (∀ c ∈ o, c.customer_id ≠ some cid) ∧ o.length ≤ 2) ∧
    (T0.length + min 2 O0.length ≤ top_k →
      ∀ c ∈ T0, c ∈ (T ++ O0.take (min 2 O0.length)).take top_k) := by
  refine ⟨List.length_take_le _ _, ?_, ?_⟩
  · obtain ⟨t, o, heq, ht, ho, holen⟩ :=
      take_append_split T (O0.take (min 2 O0.length)) top_k
    refine ⟨t, o, heq, fun c hc => htgt _ (hTsub _ (ht c hc)),
      fun c hc => hoth _ (List.mem_of_mem_take (ho c hc)), ?_⟩
    rw [List.length_take] at holen
    omega
  · intro hlen c hc
    have hfull : (T ++ O0.take (min 2 O0.length)).length ≤ top_k := by
      rw [List.length_append, hTlen, List.length_take]
      omega
    rw [List.take_of_length_le hfull]
    exact List.mem_append.mpr (.inl (hTsup c hc))

/-- C7, counterexample: the query names customer `P10` (resolved to `c1`),
all three retrieved chunks belong to that customer, and `top_k = 2`: the list
passed to generation is truncated to the first two chunks, so it does *not*
contain all of the customer's chunks. -/
theorem C7_customer_filter_counterexample :
    extract_customer_from_query "status for customer P10".data
      [⟨"c1", "P10"⟩] = some "c1" ∧
    chatbotChunksForGeneration 2026 "status for customer P10".data
      [⟨"c1", "P10"⟩] false false 2
      [⟨some "c1", none, none, "t1".data⟩, ⟨some "c1", none, none, "t2".data⟩,
       ⟨some "c1", none, none, "t3".data⟩] =
      some [⟨some "c1", none, none, "t1".data⟩,
            ⟨some "c1", none, none, "t2".data⟩] ∧
    (⟨some "c1", none, none, "t3".data⟩ : ChunkMeta).customer_id = some "c1" ∧
    ¬ (⟨some "c1", none, none, "t3".data⟩ : ChunkMeta) ∈
      [(⟨some "c1", none, none, "t1".data⟩ : ChunkMeta),
       ⟨some "c1", none, none, "t2".data⟩] := by
  refine ⟨by decide, by decide, rfl, by decide⟩

/-- C7 amended: when `extract_customer_from_query` identifies a customer and
at least one retrieved chunk belongs to them, the list passed to generation
has length at most `top_k` and consists of chunks of that customer first
followed by at most two chunks of other customers; it contains *all* of the
customer's chunks whenever they (plus the up-to-two others) fit within
`top_k` — truncation to `top_k` can otherwise drop some of them. -/
theorem C7_customer_scoped_filtering (query : List Char)
    (customers : List CustomerRow) (cid : String) (isQ isP : Bool)
    (top_k : Nat) (chunks out : List ChunkMeta)
    (hext : extract_customer_from_query query customers = some cid)
    (hex : ∃ ch ∈ chunks, ch.customer_id = some cid)
    (hout : applyCustomerFilter (extract_customer_from_query query customers)
      isQ isP top_k chunks = out) :
    out.length ≤ top_k ∧
    (∃ t o, out = t ++ o ∧ (∀ c ∈ t, c.customer_id = some cid) ∧
      (∀ c ∈ o, c.customer_id ≠ some cid) ∧ o.length ≤ 2) ∧
    ((chunks.filter fun c => c.customer_id = some cid).length +
        min 2 (chunks.filter fun c => c.customer_id ≠ some cid).length ≤ top_k →
      ∀ c ∈ chunks, c.customer_id = some cid → c ∈ out) := by
  subst hout
  rw [hext]
  unfold applyCustomerFilter
  dsimp only
  obtain ⟨c0, hc0, hc0id⟩ := hex
  have hT0mem : c0 ∈ chunks.filter fun c => c.customer_id = some cid :=
    List.mem_filter.mpr ⟨hc0, by simpa using hc0id⟩
  rw [if_neg (by simp [List.isEmpty_eq_false.mpr (List.ne_nil_of_mem hc0)]),
    if_neg (by simp [List.isEmpty_eq_false.mpr (List.ne_nil_of_mem hT0mem)])]
  have htgt : ∀ c ∈ chunks.filter fun c => c.customer_id = some cid,
      c.customer_id = some cid := fun c hc => by
    simpa using (List.mem_filter.mp hc).2
  have hoth : ∀ c ∈ chunks.filter fun c => c.customer_id ≠ some cid,
      c.customer_id ≠ some cid := fun c hc => by
    simpa using (List.mem_filter.mp hc).2
  have hfinish : ∀ T : List ChunkMeta,
      (∀ c ∈ T, c ∈ chunks.filter fun c => c.customer_id = some cid) →
      (∀ c ∈ (chunks.filter fun c => c.customer_id = some cid), c ∈ T) →
      T.length = (chunks.filter fun c => c.customer_id = some cid).length →
      (((T ++ (chunks.filter fun c => c.customer_id ≠ some cid).take
          (min 2 (chunks.filter fun c => c.customer_id ≠ some cid).length)).take
            top_k).length ≤ top_k ∧
       (∃ t o, (T ++ (chunks.filter fun c => c.customer_id ≠ some cid).take
          (min 2 (chunks.filter fun c => c.customer_id ≠ some cid).length)).take
            top_k = t ++ o ∧
         (∀ c ∈ t, c.customer_id = some cid) ∧
         (∀ c ∈ o, c.customer_id ≠ some cid) ∧ o.length ≤ 2) ∧
       ((chunks.filter fun c => c.customer_id = some cid).length +
           min 2 (chunks.filter fun c => c.customer_id ≠ some cid).length ≤
             top_k →
         ∀ c ∈ chunks, c.customer_id = some cid →
           c ∈ (T ++ (chunks.filter fun c => c.customer_id ≠ some cid).take
             (min 2 (chunks.filter fun c =>
               c.customer_id ≠ some cid).length)).take top_k)) := by
    intro T hTsub hTsup hTlen
    obtain ⟨l1, l2, l3⟩ := customerOrderedFacts T
      (chunks.filter fun c => c.customer_id = some cid)
      (chunks.filter fun c => c.customer_id ≠ some cid) cid top_k
      hTsub hTsup hTlen htgt hoth
    exact ⟨l1, l2, fun hlen c hc hcid =>
      l3 hlen c (List.mem_filter.mpr ⟨hc, by simpa using hcid⟩)⟩
  split
  · -- questionnaire-response queries: those chunks first within the target's
    have hpart := filter_partition_facts
      (fun c : ChunkMeta => decide (c.doc_type = some "questionnaire_response"))
      (chunks.filter fun c => c.customer_id = some cid)
    have hBeq : ((chunks.filter fun c => c.customer_id = some cid).filter
        fun c => c.doc_type ≠ some "questionnaire_response") =
        (chunks.filter fun c => c.customer_id = some cid).filter
          fun c => !(decide (c.doc_type = some "questionnaire_response")) :=
      List.filter_congr fun x _ => by simp
    rw [hBeq]
    exact hfinish _ hpart.2.2 hpart.2.1 hpart.1
  · split
    · -- proposal queries
      have hpart := filter_partition_facts
        (fun c : ChunkMeta => decide (c.doc_type = some "proposal"))
        (chunks.filter fun c => c.customer_id = some cid)
      have hBeq : ((chunks.filter fun c => c.customer_id = some cid).filter
          fun c => c.doc_type ≠ some "proposal") =
          (chunks.filter fun c => c.customer_id = some cid).filter
            fun c => !(decide (c.doc_type = some "proposal")) :=
        List.filter_congr fun x _ => by simp
      rw [hBeq]
      exact hfinish _ hpart.2.2 hpart.2.1 hpart.1
    · -- default ordering: target chunks verbatim
      exact hfinish _ (fun c hc => hc) (fun c hc => hc) rfl

/-- Witness for C7: the amended theorem applied to one target chunk and one
other-customer chunk with `top_k = 5`. -/
theorem C7_customer_scoped_filtering_witness :
    ∃ t o, applyCustomerFilter
        (extract_customer_from_query "status for customer P10".data
          [⟨"c1", "P10"⟩]) false false 5
        [⟨some "c1", none, none, "t1".data⟩, ⟨some "c2", none, none, "t2".data⟩] =
      t ++ o ∧
      (∀ c ∈ t, c.customer_id = some "c1") ∧
      (∀ c ∈ o, c.customer_id ≠ some "c1") ∧ o.length ≤ 2 := by
  obtain ⟨-, hsplit, -⟩ := C7_customer_scoped_filtering
    "status for customer P10".data [⟨"c1", "P10"⟩] "c1" false false 5
    [⟨some "c1", none, none, "t1".data⟩, ⟨some "c2", none, none, "t2".data⟩]
    (applyCustomerFilter
      (extract_customer_from_query "status for customer P10".data
        [⟨"c1", "P10"⟩]) false false 5
      [⟨some "c1", none, none, "t1".data⟩, ⟨some "c2", none, none, "t2".data⟩])
    (by decide)
    ⟨⟨some "c1", none, none, "t1".data⟩, by decide, rfl⟩
    rfl
  exact hsplit

end BusinessPulse
